import Mathlib

/-!
Verification of the natural-language specification of dw-0/simple-config-parser
against a shallow embedding of `src/simple_config_parser/simple_config_parser.py`
(class `SimpleConfigParser`).

The embedding translates the Python source faithfully:

  * the five module regexes (`_SECTION_RE`, `_OPTION_RE`, `_ML_OPTION_RE`,
    `_COMMENT_RE`, `_EMPTY_LINE_RE`) are determinized by hand for the kind of
    input the parser actually receives, namely the lines produced by
    `file.readlines()`: strings whose only newline, if any, is the final
    character; character classes are modelled over ASCII
    (Python `\w` = letter, digit or underscore; `\s` = space, tab, newline,
    carriage return, vertical tab, form feed);
  * Python dicts (which preserve insertion order) are modelled as association
    lists with first-match lookup, update-in-place and append-new-key;
  * exceptions are modelled with `Except`: `NoSectionError`, `NoOptionError`,
    `DuplicateSectionError`, `DuplicateOptionError` mirror the classes defined
    in the module, and `typeError` / `keyError` / `attributeError` /
    `valueError` mirror the built-in exceptions the code can raise (an
    exception discards the partially mutated state in this model);
  * the `_UNSET` sentinel used as a fallback default is modelled by `Option`
    (`none` means the argument was omitted), and `get` returning the sentinel
    itself is modelled by the dedicated result constructor `GetRes.unset`.
-/

deriving instance DecidableEq for Except

namespace SCP

/-! ### Python character classes and string helpers (ASCII fragment) -/

/-- Python regex class `\s` restricted to ASCII: space, tab, newline,
carriage return, vertical tab, form feed. -/
def isPySpace (c : Char) : Bool :=
  c == ' ' || c == '\t' || c == '\n' || c == '\r' || c == '\x0b' || c == '\x0c'

/-- Python regex class `\w` restricted to ASCII: letters, digits, underscore. -/
def isWordChar (c : Char) : Bool :=
  c.isAlphanum || c == '_'

/-- Python `str.strip()` (no arguments) on a character list: remove leading
and trailing whitespace. -/
def stripChars (l : List Char) : List Char :=
  ((l.dropWhile isPySpace).reverse.dropWhile isPySpace).reverse

/-- Python `str.strip()` on a string. -/
def pyStrip (s : String) : String :=
  ⟨stripChars s.data⟩

/-- The part of a line before its trailing newline, if it has one.  For the
lines handed to the parser by `readlines`, this is the whole visible content. -/
def lineCore (l : List Char) : List Char :=
  if l.getLast? = some '\n' then l.dropLast else l

/-- Whether the line ends with a newline character. -/
def lineNl (l : List Char) : Bool :=
  l.getLast? = some '\n'

/-- A string shaped like a line from `readlines`: any newline it contains is
the final character.  The regex determinizations below are exact for such
strings. -/
def IsLine (s : String) : Bool :=
  (lineCore s.data).all (fun c => ¬ (c = '\n'))

/-! ### The five line matchers

`_SECTION_RE  = \s*\[(\w+ ?\w+)]\s*([#|;].*)*$`
`_OPTION_RE   = ^\s*(\w+)\s*[:=][^:=]\s*(.+)\s*([#|;]*).*$`
`_ML_OPTION_RE= ^\s*(\w+)\s*[:=][^:=]\s*([#|;]*).*$`
`_COMMENT_RE  = ^\s*[#;].*`
`_EMPTY_LINE_RE = ^\s*$`

all used through `re.match` (anchored at the start of the string). -/

/-- The group `(\w+ ?\w+)` of `_SECTION_RE`: word characters with at most one
internal space; note that it requires at least two word characters in total,
so a single-character section name never matches. -/
def validSecName (p : List Char) : Bool :=
  decide (2 ≤ p.length) &&
  p.all (fun c => isWordChar c || c == ' ') &&
  decide (p.count ' ' ≤ 1) &&
  (match p.head? with | some c => isWordChar c | none => false) &&
  (match p.getLast? with | some c => isWordChar c | none => false)

/-- After the closing bracket, `_SECTION_RE` accepts `\s*([#|;].*)*$`:
whitespace, then optionally a trailing comment introduced by one of the
characters matched by the class `[#|;]`. -/
def sectionTailOk (r : List Char) : Bool :=
  match r.dropWhile isPySpace with
  | [] => true
  | c :: _ => c == '#' || c == '|' || c == ';'

/-- The captured (and then `.strip()`-ped, a no-op here) section name of
`_SECTION_RE`, or `none` if the line does not match. -/
def sectionName (line : String) : Option String :=
  let core := lineCore line.data
  match core.dropWhile isPySpace with
  | '[' :: rest =>
    let p := rest.takeWhile (fun c => isWordChar c || c == ' ')
    match rest.dropWhile (fun c => isWordChar c || c == ' ') with
    | ']' :: rest₂ =>
      if validSecName p && sectionTailOk rest₂ then some ⟨p⟩ else none
    | _ => none
  | _ => none

/-- Matcher `SimpleConfigParser._is_section`. -/
def isSectionLine (line : String) : Bool :=
  (sectionName line).isSome

/-- Shared front of `_OPTION_RE` and `_ML_OPTION_RE`: leading whitespace, a
word run (group 1), whitespace, then a single `:` or `=` delimiter.  Returns
the name and the characters of the core following the delimiter. -/
def optScan (core : List Char) : Option (List Char × List Char) :=
  let s₁ := core.dropWhile isPySpace
  let w := s₁.takeWhile isWordChar
  if w.isEmpty then none
  else
    match (s₁.dropWhile isWordChar).dropWhile isPySpace with
    | d :: rest => if d == ':' || d == '=' then some (w, rest) else none
    | [] => none

/-- The `(name, value)` captured by `_OPTION_RE` with the value already
`.strip()`-ped as in `_parse_option`, or `none` if the line does not match.
After the delimiter the regex consumes one character that is not `:` or `=`
and then requires at least one further non-newline character for `(.+)`;
the stripped value is exactly the stripped remainder after that consumed
character. -/
def optionNV (line : String) : Option (String × String) :=
  match optScan (lineCore line.data) with
  | some (w, c :: tail) =>
    if (c == ':' || c == '=') || tail.isEmpty then none
    else some (⟨w⟩, ⟨stripChars tail⟩)
  | _ => none

/-- Matcher `SimpleConfigParser._is_option`. -/
def isOptionLine (line : String) : Bool :=
  (optionNV line).isSome

/-- The name captured by `_ML_OPTION_RE` (already `.strip()`-ped, a no-op),
or `none` if the line does not match.  After the delimiter the regex only
needs one character that is not `:` or `=`; the trailing newline of the line
can serve as that character. -/
def mlName (line : String) : Option String :=
  match optScan (lineCore line.data) with
  | some (w, c :: _) => if c == ':' || c == '=' then none else some ⟨w⟩
  | some (w, []) => if lineNl line.data then some ⟨w⟩ else none
  | none => none

/-- Matcher `SimpleConfigParser._is_multiline_option`. -/
def isMlLine (line : String) : Bool :=
  (mlName line).isSome

/-- Matcher `SimpleConfigParser._is_comment` (`^\s*[#;].*`). -/
def isCommentLine (line : String) : Bool :=
  match line.data.dropWhile isPySpace with
  | [] => false
  | c :: _ => c == '#' || c == ';'

/-- Matcher `SimpleConfigParser._is_empty_line` (`^\s*$`). -/
def isEmptyLine (line : String) : Bool :=
  line.data.all isPySpace

/-- The line kinds of the specification's classifier (§4.1), applied in the
priority order of `_parse_config`: Section, Option, MultilineStart, then
Comment or Blank (collapsed to `fill`, since the builder routes both the same
way), and `other` for a line matching none of the patterns. -/
inductive LKind : Type
  | sec (n : String)
  | opt (n v : String)
  | mlstart (n : String)
  | fill
  | other
deriving DecidableEq, Repr

/-- The stateless classification underlying the `_parse_config` dispatch. -/
def classifyLine (line : String) : LKind :=
  match sectionName line with
  | some n => .sec n
  | none =>
    match optionNV line with
    | some (n, v) => .opt n v
    | none =>
      match mlName line with
      | some n => .mlstart n
      | none =>
        if isCommentLine line || isEmptyLine line then .fill else .other

/-! ### Ordered dictionaries

Python dicts preserve insertion order: lookup finds the (unique) entry for a
key, assignment updates an existing key in place and appends a fresh key at
the end.  We model them as association lists. -/

/-- First-match lookup, modelling `d[k]` / `d.get(k)`. -/
def alFind {β : Type} (k : String) : List (String × β) → Option β
  | [] => none
  | (k', v) :: l => if k' = k then some v else alFind k l

/-- Key membership, modelling `k in d`. -/
def alMem {β : Type} (k : String) (l : List (String × β)) : Bool :=
  (alFind k l).isSome

/-- Assignment `d[k] = v`: replace the first entry for `k` in place, or
append a new entry at the end. -/
def alSet {β : Type} (k : String) (v : β) : List (String × β) → List (String × β)
  | [] => [(k, v)]
  | (k', v') :: l => if k' = k then (k, v) :: l else (k', v') :: alSet k v l

/-- In-place update of the value stored for `k` (first match); the list is
unchanged when `k` is absent.  Models mutating `d[k]` through a reference. -/
def alModify {β : Type} (k : String) (f : β → β) : List (String × β) → List (String × β)
  | [] => []
  | (k', v) :: l => if k' = k then (k', f v) :: l else (k', v) :: alModify k f l

/-! ### The document model: `SimpleConfigParser` state -/

/-- The value recorded in the option lookup dict `self._options[section][o]`:
a plain string for a parsed single-line option, a list of strings for a
multiline option or any value stored by `set`. -/
inductive Value : Type
  | str (s : String)
  | list (l : List String)
deriving DecidableEq, Repr

/-- One entry of a section body (TypedDict `Option` in the source): field
names `raw` and `rawValue` model `_raw` and `_raw_value`. -/
structure BodyOpt : Type where
  is_multiline : Bool
  option : String
  value : List String
  raw : String
  rawValue : List String
deriving DecidableEq, Repr

/-- One entry of `self._config` (TypedDict `Section` in the source): the raw
header line and the body entries in file order. -/
structure SectCfg : Type where
  raw : String
  body : List BodyOpt
deriving DecidableEq, Repr

/-- The mutable state of a `SimpleConfigParser` instance:
`config` is `self._config`, `header` is `self._header`, `sections` is
`self._sections`, `options` is `self._options`, `currSect` is
`self.curr_sect_name` and `inOptionBlock` is `self.in_option_block`. -/
structure Parser : Type where
  config : List (String × SectCfg)
  header : List String
  sections : List String
  options : List (String × List (String × Value))
  currSect : String
  inOptionBlock : Bool
deriving DecidableEq, Repr

/-- A freshly constructed `SimpleConfigParser()`. -/
def Parser.init : Parser :=
  ⟨[], [], [], [], "", false⟩

/-- The exceptions the embedded methods can raise.  The first four model the
module's own exception classes, the others the Python built-ins raised by
operations such as `x in None` (TypeError), `d[missing]` (KeyError),
`"s".append` (AttributeError) and `int("x")` (ValueError). -/
inductive PyErr : Type
  | noSection (s : String)
  | noOption (o s : String)
  | dupSection (s : String)
  | dupOption (o s : String)
  | typeError
  | keyError (k : String)
  | attributeError
  | valueError (v : String)
deriving DecidableEq, Repr

/-! ### The document builder (`_parse_config` and its helpers) -/

/-- The body entry built by `_add_option_to_section_body(option, value,
line)` with `is_multiline` left at its default `False` (as all callers do):
the `value` list keeps the value only when it is non-empty and not a
comment, the `_raw_value` list whenever it is non-empty. -/
def mkBodyEntry (option value line : String) : BodyOpt :=
  ⟨false, option,
    (if value ≠ "" && !(isCommentLine value) then [value] else []),
    line,
    (if value ≠ "" then [value] else [])⟩

/-- Appending one entry to a section body. -/
def appendBody (e : BodyOpt) (c : SectCfg) : SectCfg :=
  { c with body := c.body ++ [e] }

/-- Method `_add_option_to_section_body(option, value, line)`.  Looking up
`self._config[self.curr_sect_name]` raises `KeyError` when no section with
that name was ever created; `_parse_section` always stores a `body` list, so
the `.get("body") is None` guard of the source never fires and the `body`
field is total in the model. -/
def addOptionToSectionBody (p : Parser) (option value line : String) :
    Except PyErr Parser :=
  match alFind p.currSect p.config with
  | none => .error (.keyError p.currSect)
  | some _ =>
    .ok { p with
          config := alModify p.currSect
            (appendBody (mkBodyEntry option value line)) p.config }

/-- Method `_parse_section`.  The source sets `in_option_block` and
`curr_sect_name` before the duplicate check; raising an error discards the
state in this model. -/
def parseSection (p : Parser) (line : String) : Except PyErr Parser :=
  match sectionName line with
  | none => .error .attributeError
  | some name =>
    if name ∈ p.sections then .error (.dupSection name)
    else
      .ok { p with
            inOptionBlock := false
            currSect := name
            sections := p.sections ++ [name]
            config := alSet name ⟨line, []⟩ p.config }

/-- Method `_parse_option`. -/
def parseOption (p : Parser) (line : String) : Except PyErr Parser :=
  match optionNV line with
  | none => .error .attributeError
  | some (option, value) =>
    let p := { p with inOptionBlock := false }
    let p :=
      if (alFind p.currSect p.options).isNone then
        { p with options := alSet p.currSect [] p.options }
      else p
    let opts := (alFind p.currSect p.options).getD []
    if alMem option opts then .error (.dupOption option p.currSect)
    else
      let p := { p with
                 options := alModify p.currSect (alSet option (.str value)) p.options }
      addOptionToSectionBody p option value line

/-- The per-entry update of the body loop of `_parse_multiline_option`: the
matching entries become multiline, collect the raw line, and (for lines that
are neither comments nor blank once stripped) the cleaned value. -/
def contUpdate (currMl line cleaned : String) (e : BodyOpt) : BodyOpt :=
  if e.option = currMl then
    { e with
      is_multiline := true
      rawValue := e.rawValue ++ [line]
      value :=
        if !(isCommentLine line) && cleaned ≠ "" then e.value ++ [cleaned]
        else e.value }
  else e

/-- Method `_parse_multiline_option(curr_ml_opt, line)`.  Appending the
cleaned line to an existing value that is a plain string (a previously parsed
single-line option of the same name) raises `AttributeError`; the body loop
of the source carries no `break`, so every body entry whose name matches is
updated. -/
def parseMultilineOption (p : Parser) (currMl line : String) :
    Except PyErr Parser :=
  let p :=
    if (alFind p.currSect p.options).isNone then
      { p with options := alSet p.currSect [] p.options }
    else p
  let p :=
    if (alFind currMl ((alFind p.currSect p.options).getD [])).isNone then
      { p with options := alModify p.currSect (alSet currMl (.list [])) p.options }
    else p
  let cleaned := pyStrip line
  let valStep : Except PyErr Parser :=
    if cleaned ≠ "" && !(isCommentLine line) then
      match alFind currMl ((alFind p.currSect p.options).getD []) with
      | some (.str _) => .error .attributeError
      | some (.list vs) =>
        .ok { p with
              options := alModify p.currSect
                (alSet currMl (.list (vs ++ [cleaned]))) p.options }
      | none => .ok p
    else .ok p
  match valStep with
  | .error e => .error e
  | .ok p =>
    match alFind p.currSect p.config with
    | none => .error (.keyError p.currSect)
    | some _ =>
      .ok { p with
            config := alModify p.currSect
              (fun sc => { sc with
                body := sc.body.map (contUpdate currMl line cleaned) }) p.config }

/-- Method `_parse_comment`: header lines before the first section, filler
body entries afterwards. -/
def parseComment (p : Parser) (line : String) : Except PyErr Parser :=
  let p := { p with inOptionBlock := false }
  if p.currSect = "" then .ok { p with header := p.header ++ [line] }
  else addOptionToSectionBody p "" "" line

/-- One iteration of the `_parse_config` loop.  The second component of the
state is the loop-local variable `_curr_multi_opt`.  The branches are tried
in the source's order (the source comment insists the order matters); a line
matching none of them outside a multiline block is silently dropped. -/
def parseLineStep (st : Parser × String) (line : String) :
    Except PyErr (Parser × String) :=
  let (p, cm) := st
  if isSectionLine line then (parseSection p line).map ((·, cm))
  else if isOptionLine line then (parseOption p line).map ((·, cm))
  else if isMlLine line then
    let cm := (mlName line).getD ""
    let p := { p with inOptionBlock := true }
    (addOptionToSectionBody p cm "" line).map ((·, cm))
  else if p.inOptionBlock then (parseMultilineOption p cm line).map ((·, cm))
  else if isCommentLine line || isEmptyLine line then
    (parseComment p line).map ((·, cm))
  else .ok (p, cm)

/-- Method `_parse_config(content)`: fold the line loop over the input,
starting with `_curr_multi_opt = ""`. -/
def parseConfig (p : Parser) (lines : List String) : Except PyErr Parser :=
  (lines.foldlM parseLineStep (p, "")).map (·.1)

/-! ### The serializer (`write`, minus the file output) -/

/-- What one body entry contributes to the output of `write`: its raw line
followed, for multiline entries, by the raw continuation lines. -/
def entryRender (b : BodyOpt) : String :=
  b.raw ++ (if b.is_multiline then String.join b.rawValue else "")

/-- What one section contributes to the output of `write`: its raw header
line, then each body entry's contribution. -/
def SectCfg.render (sc : SectCfg) : String :=
  sc.raw ++ String.join (sc.body.map entryRender)

/-- The text assembled by `write(filename)` before it is written out: the
header lines followed by every section's rendering, in `self._config` order. -/
def Parser.write (p : Parser) : String :=
  String.join p.header ++ String.join (p.config.map (fun x => x.2.render))

/-! ### The accessor layer -/

/-- Method `has_section`. -/
def Parser.hasSection (p : Parser) (section' : String) : Bool :=
  section' ∈ p.sections

/-- Method `has_option`: `option in self._options.get(section)`.  When the
section has no entry in `self._options`, `get` yields `None` and the
membership test raises `TypeError` (`argument of type NoneType is not
iterable`). -/
def Parser.hasOption (p : Parser) (section' option : String) : Except PyErr Bool :=
  match alFind section' p.options with
  | none => .error .typeError
  | some opts => .ok (alMem option opts)

/-- Method `options(section)`: literally `return self._options.get(section)`,
so it returns the section's option dict, or `None` when the section has no
entry there; it never raises. -/
def Parser.optionsFn (p : Parser) (section' : String) :
    Option (List (String × Value)) :=
  alFind section' p.options

/-- The body of `get`'s `try` block: the checks in source order.  As in
`has_option`, a section that is in `self._sections` but has no dict in
`self._options` makes the membership test raise `TypeError`, which the
`except (NoSectionError, NoOptionError)` clause does not catch. -/
def Parser.getInner (p : Parser) (section' option : String) : Except PyErr Value :=
  if section' ∉ p.sections then .error (.noSection section')
  else
    match alFind section' p.options with
    | none => .error .typeError
    | some opts =>
      match alFind option opts with
      | none => .error (.noOption option section')
      | some v => .ok v

/-- What a call to `get` evaluates to: a stored value, or the module-level
`_UNSET` sentinel object (which `get` returns when the lookup fails and no
fallback was supplied, because its fallback test is `is not _UNSET`). -/
inductive GetRes : Type
  | val (v : Value)
  | unset
deriving DecidableEq, Repr

/-- Method `get(section, option, fallback=_UNSET)`; `fallback = none` models
the omitted argument.  The source's `except` clause reads
`if fallback is not _UNSET: raise` followed by `return fallback`, so a
supplied fallback re-raises the lookup error and an omitted one returns the
`_UNSET` sentinel; the fallback value itself is never returned. -/
def Parser.get (p : Parser) (section' option : String) (fallback : Option Value) :
    Except PyErr GetRes :=
  match p.getInner section' option with
  | .ok v => .ok (.val v)
  | .error (.noSection s) =>
    if fallback.isSome then .error (.noSection s) else .ok .unset
  | .error (.noOption o s) =>
    if fallback.isSome then .error (.noOption o s) else .ok .unset
  | .error e => .error e

/-- Python `int(s)` on a string argument, ASCII fragment: optional
whitespace, an optional sign, then one or more decimal digits (numeric
underscore separators are not modelled; no claim uses them).  `none` models
the `ValueError` raised for any other string, such as `"1.5"`. -/
def pyInt (s : String) : Option Int :=
  let t := stripChars s.data
  let (sign, digits) :=
    match t with
    | '-' :: r => (true, r)
    | '+' :: r => (false, r)
    | r => (false, r)
  if digits.isEmpty || !digits.all Char.isDigit then none
  else
    let n : Nat := digits.foldl (fun acc c => acc * 10 + (c.toNat - 48)) 0
    some (if sign then -(n : Int) else (n : Int))

/-- The conversion function `int` as used by `_get_conv`: applied to the
result of `get`, it raises `TypeError` on the `_UNSET` sentinel or on a list
value, and `ValueError` on a string that is not an integer literal. -/
def convInt (r : GetRes) : Except PyErr Int :=
  match r with
  | .unset => .error .typeError
  | .val (.list _) => .error .typeError
  | .val (.str s) =>
    match pyInt s with
    | some n => .ok n
    | none => .error (.valueError s)

/-- Method `_get_conv(section, option, conv, fallback)`: it calls
`conv(self.get(section, option, fallback))` inside a bare `try`/`except`
that returns the fallback when one was supplied and re-raises otherwise.
`get` inspects its fallback argument only through `is not _UNSET` and never
returns it, so only the presence of the fallback is forwarded (as a
placeholder value). -/
def Parser.getConv {α : Type} (p : Parser) (section' option : String)
    (conv : GetRes → Except PyErr α) (fallback : Option α) : Except PyErr α :=
  let attempt :=
    match p.get section' option (fallback.map (fun _ => Value.str "")) with
    | .ok r => conv r
    | .error e => .error e
  match attempt with
  | .ok a => .ok a
  | .error e =>
    match fallback with
    | some f => .ok f
    | none => .error e

/-- Method `getint`: `_get_conv` with the conversion `int`. -/
def Parser.getint (p : Parser) (section' option : String) (fallback : Option Int) :
    Except PyErr Int :=
  p.getConv section' option convInt fallback

/-- Method `getfloat`: the source passes `int` (not `float`) as the
conversion, `return self._get_conv(section, option, int, fallback=fallback)`. -/
def Parser.getfloat (p : Parser) (section' option : String) (fallback : Option Int) :
    Except PyErr Int :=
  p.getConv section' option convInt fallback

/-! ### The mutation layer: `set` -/

/-- The `for ... if _option["option"] == option: ...; break` loop of `set`:
replace `value`, `_raw` and `_raw_value` of the first body entry with the
given name (`is_multiline` is left untouched). -/
def updateFirstBody (option : String) (val : List String) (raw : String)
    (rawVal : List String) : List BodyOpt → List BodyOpt
  | [] => []
  | e :: es =>
    if e.option = option then
      { e with value := val, raw := raw, rawValue := rawVal } :: es
    else e :: updateFirstBody option val raw rawVal es

/-- Method `set(section, option, value, multiline=False, indent=2)`.
A value containing a newline (or an explicit `multiline=True`) is stored as a
multiline entry with each value line indented; otherwise as a single-line
entry with raw form `"option: value\n"`.  An existing option is updated in
place through `updateFirstBody`; a missing one is appended to the body.  As
in `has_option`, a section present in `self._sections` but absent from
`self._options` raises `TypeError` at the `option not in
self._options.get(section)` test. -/
def Parser.set (p : Parser) (section' option value : String)
    (multiline : Bool := false) (indent : Nat := 2) : Except PyErr Parser :=
  if section' ∉ p.sections then .error (.noSection section')
  else
    let ml := multiline || value.data.contains '\n'
    let val := if ml then value.splitOn "\n" else [value]
    let raw := if ml then option ++ ":\n" else option ++ ": " ++ value ++ "\n"
    let rawVal :=
      if ml then val.map (fun v => ⟨List.replicate indent ' '⟩ ++ v ++ "\n")
      else [value ++ "\n"]
    match alFind section' p.options with
    | none => .error .typeError
    | some opts =>
      match alFind section' p.config with
      | none => .error (.keyError section')
      | some _ =>
        let entry : BodyOpt := ⟨ml, option, val, raw, rawVal⟩
        let newCfg :=
          if !(alMem option opts) then
            alModify section' (fun sc => { sc with body := sc.body ++ [entry] }) p.config
          else
            alModify section'
              (fun sc => { sc with body := updateFirstBody option val raw rawVal sc.body })
              p.config
        .ok { p with
              config := newCfg
              options := alModify section' (alSet option (.list val)) p.options }

/-- The body entry written by the single-line branch of `set`. -/
def singleEntry (k v : String) : BodyOpt :=
  ⟨false, k, [v], k ++ ": " ++ v ++ "\n", [v ++ "\n"]⟩

/-- The in-place update `set` applies to an existing body entry for a
single-line value: `value`, `_raw` and `_raw_value` are replaced,
`is_multiline` and the name are untouched. -/
def updatedEntry (e : BodyOpt) (k v : String) : BodyOpt :=
  { e with value := [v], raw := k ++ ": " ++ v ++ "\n", rawValue := [v ++ "\n"] }

/-- The transformation `set` applies to the stored section in its
update-in-place branch. -/
def setUpdateSect (k v : String) (c : SectCfg) : SectCfg :=
  { c with body := updateFirstBody k [v] (k ++ ": " ++ v ++ "\n") [v ++ "\n"] c.body }

/-- The transformation `set` applies to the stored section in its append
branch. -/
def setAppendSect (k v : String) (c : SectCfg) : SectCfg :=
  { c with body := c.body ++ [singleEntry k v] }

/-- A small concrete two-section document (section `ab` holding option `k`
with value `"v"`, section `cd` empty), as produced by parsing
`["[ab]\n", "k: v\n", "[cd]\n"]`; used by closed witnesses. -/
def sampleDoc : Parser :=
  ⟨[("ab", ⟨"[ab]\n", [⟨false, "k", ["v"], "k: v\n", ["v"]⟩]⟩),
    ("cd", ⟨"[cd]\n", []⟩)], [], ["ab", "cd"],
    [("ab", [("k", .str "v")]), ("cd", [])], "cd", false⟩

/-! ### Well-formed inputs for the round-trip property

`scanStep` is the specification-side state machine of §4.1/§4.2: it tracks
only which section is open, whether a multiline block is open, and which
section and option names have been declared.  It accepts an input when every
line classifies (`other` lines only as continuations inside an open block),
every non-filler line before the first section header is ruled out, and no
section name or per-section option name (single-line or multiline) is
declared twice. -/

/-- Ledger state of the validity scan: declared sections in order and, per
section, the declared option names with their kind (`true` = multiline). -/
structure ScanSt : Type where
  secs : List String
  declared : List (String × List (String × Bool))
  cur : Option String
  inBlock : Bool
deriving DecidableEq, Repr

/-- The empty ledger. -/
def ScanSt.init : ScanSt :=
  ⟨[], [], none, false⟩

/-- Whether option name `n` was already declared in section `s`. -/
def declHas (d : List (String × List (String × Bool))) (s n : String) : Bool :=
  match alFind s d with
  | none => false
  | some ds => ds.any (fun e => e.1 = n)

/-- One step of the validity scan; `none` rejects the input. -/
def scanStep (st : ScanSt) (line : String) : Option ScanSt :=
  match classifyLine line with
  | .sec n =>
    if st.secs.contains n then none
    else some ⟨st.secs ++ [n], st.declared ++ [(n, [])], some n, false⟩
  | .opt n _ =>
    match st.cur with
    | none => none
    | some s =>
      if declHas st.declared s n then none
      else some { st with
                  declared := alModify s (fun ds => ds ++ [(n, false)]) st.declared
                  inBlock := false }
  | .mlstart n =>
    match st.cur with
    | none => none
    | some s =>
      if declHas st.declared s n then none
      else some { st with
                  declared := alModify s (fun ds => ds ++ [(n, true)]) st.declared
                  inBlock := true }
  | .fill => some st
  | .other => if st.inBlock then some st else none

/-- Run the validity scan over a whole input. -/
def scanLines (st : ScanSt) (lines : List String) : Option ScanSt :=
  lines.foldlM scanStep st

/-- A syntactically well-formed input: a sequence of `readlines`-shaped lines
accepted by the validity scan. -/
def ValidInput (lines : List String) : Bool :=
  lines.all IsLine && (scanLines ScanSt.init lines).isSome

/-- Whether a stored option value has the multiline shape (a list) or the
single-line shape (a plain string). -/
def valueKind : Value → Bool
  | .str _ => false
  | .list _ => true

/-- The coupling invariant of the round-trip proof, relating the parser
state `p` and the loop-local `_curr_multi_opt` value `cm` to the ledger `sc`
of the validity scan: the three section orders agree, before the first
section everything is empty, the current section is the last one, per
section the non-filler body-entry names are exactly the declared option
names (without repetition), every recorded option value has the kind it was
declared with, and while a multiline block is open the block option is the
last body entry of the current section and the only entry with its name. -/
structure Inv (p : Parser) (cm : String) (sc : ScanSt) : Prop where
  secs_eq : p.sections = sc.secs
  cfg_keys : p.config.map Prod.fst = sc.secs
  decl_keys : sc.declared.map Prod.fst = sc.secs
  cur_eq : sc.cur = (if p.currSect = "" then none else some p.currSect)
  header_mode : p.currSect = "" →
    p.config = [] ∧ p.sections = [] ∧ p.options = [] ∧ p.inOptionBlock = false
  cur_last : p.currSect ≠ "" → sc.secs.getLast? = some p.currSect
  secs_nodup : sc.secs.Nodup
  body_names : ∀ s ds, alFind s sc.declared = some ds →
    ∃ cfg, alFind s p.config = some cfg ∧
      (cfg.body.map BodyOpt.option).filter (fun x => x ≠ "") = ds.map Prod.fst
  decl_nodup : ∀ s ds, alFind s sc.declared = some ds → (ds.map Prod.fst).Nodup
  opts_sub : ∀ s opts, alFind s p.options = some opts →
    ∃ ds, alFind s sc.declared = some ds ∧
      ∀ nv ∈ opts, (nv.1, valueKind nv.2) ∈ ds
  block_eq : p.inOptionBlock = sc.inBlock
  block_open : sc.inBlock = true →
    cm ≠ "" ∧ p.currSect ≠ "" ∧
    ∃ cfg b e, alFind p.currSect p.config = some cfg ∧ cfg.body = b ++ [e] ∧
      e.option = cm ∧ (∀ x ∈ b, x.option ≠ cm) ∧
      (e.is_multiline = false → e.rawValue = []) ∧
      ∃ ds, alFind p.currSect sc.declared = some ds ∧ (cm, true) ∈ ds

/-! ### Sanity checks of the matchers against behaviour of the regexes -/

example : isSectionLine "[example_section]" = true := by decide
example : isSectionLine "[example_section two]" = true := by decide
example : isSectionLine "not_a_valid_section" = false := by decide
example : isSectionLine "section: invalid" = false := by decide
example : isSectionLine "[section1] # inline comment" = true := by decide
example : isSectionLine "[ab]\n" = true := by decide
example : isOptionLine "valid_option: value" = true := by decide
example : isOptionLine "valid_option: value\n" = true := by decide
example : isOptionLine "valid_option :value" = true := by decide
example : isOptionLine "invalid_option:" = false := by decide
example : isOptionLine "invalid_option:: value" = false := by decide
example : isOptionLine "invalid_option := value" = false := by decide
example : isOptionLine "[that_is_a_section]" = false := by decide
example : isMlLine "valid_option:\n" = true := by decide
example : isMlLine "valid_option: ; inline comment" = true := by decide
example : isMlLine "valid_option = " = true := by decide
example : isMlLine "invalid_option ==" = false := by decide
example : isMlLine "not_a_valid_option" = false := by decide
example : isCommentLine "# an arbitrary comment" = true := by decide
example : isCommentLine "  ; indented comment" = true := by decide
example : isCommentLine "not_a: comment" = false := by decide
example : isEmptyLine "" = true := by decide
example : isEmptyLine " " = true := by decide
example : isEmptyLine "  # indented comment" = false := by decide
example : optionNV "option: value\n" = some ("option", "value") := by decide
example : mlName "opt:\n" = some "opt" := by decide

/-! ### Laws of the ordered-dictionary operations -/

theorem alFind_alModify_self {β : Type} (k : String) (f : β → β)
    (l : List (String × β)) (v : β) (h : alFind k l = some v) :
    alFind k (alModify k f l) = some (f v) := by
  induction l with
  | nil => simp [alFind] at h
  | cons hd tl ih =>
    obtain ⟨k', v'⟩ := hd
    by_cases hk : k' = k
    · subst hk
      simp [alFind, alModify] at h ⊢
      simp [h]
    · simp [alFind, alModify, hk] at h ⊢
      exact ih h

theorem alFind_alModify_ne {β : Type} (t k : String) (f : β → β)
    (l : List (String × β)) (h : t ≠ k) :
    alFind t (alModify k f l) = alFind t l := by
  induction l with
  | nil => simp [alModify]
  | cons hd tl ih =>
    obtain ⟨k', v'⟩ := hd
    by_cases hk : k' = k
    · have hkt : ¬ k' = t := by rw [hk]; exact fun hh => h hh.symm
      have hkt2 : ¬ k = t := fun hh => h hh.symm
      simp [alFind, alModify, hk, hkt, hkt2]
    · simp [alFind, alModify, hk, ih]

theorem alFind_alSet_self {β : Type} (k : String) (v : β) (l : List (String × β)) :
    alFind k (alSet k v l) = some v := by
  induction l with
  | nil => simp [alSet, alFind]
  | cons hd tl ih =>
    obtain ⟨k', v'⟩ := hd
    by_cases hk : k' = k
    · subst hk; simp [alSet, alFind]
    · simp [alSet, alFind, hk, ih]

theorem alFind_alSet_ne {β : Type} (t k : String) (v : β) (l : List (String × β))
    (h : t ≠ k) : alFind t (alSet k v l) = alFind t l := by
  have hkt : ¬ k = t := fun hh => h hh.symm
  induction l with
  | nil => simp [alSet, alFind, hkt]
  | cons hd tl ih =>
    obtain ⟨k', v'⟩ := hd
    by_cases hk : k' = k
    · have hkt' : ¬ k' = t := by rw [hk]; exact hkt
      simp [alSet, alFind, hk, hkt, hkt']
    · simp [alSet, alFind, hk, ih]

theorem alSet_of_not_mem {β : Type} (k : String) (v : β) (l : List (String × β))
    (h : alMem k l = false) : alSet k v l = l ++ [(k, v)] := by
  induction l with
  | nil => simp [alSet]
  | cons hd tl ih =>
    obtain ⟨k', v'⟩ := hd
    by_cases hk : k' = k
    · subst hk; simp [alMem, alFind] at h
    · simp only [alMem, alFind, hk, if_false, if_neg hk] at h
      have h' : alMem k tl = false := by simp [alMem, h]
      simp [alSet, hk, ih h']

theorem alModify_keys {β : Type} (k : String) (f : β → β) (l : List (String × β)) :
    (alModify k f l).map Prod.fst = l.map Prod.fst := by
  induction l with
  | nil => simp [alModify]
  | cons hd tl ih =>
    obtain ⟨k', v'⟩ := hd
    by_cases hk : k' = k <;> simp [alModify, hk, ih]

theorem alFind_append_left {β : Type} (k : String) (l₁ l₂ : List (String × β))
    (h : (alFind k l₁).isSome) :
    alFind k (l₁ ++ l₂) = alFind k l₁ := by
  induction l₁ with
  | nil => simp [alFind] at h
  | cons hd tl ih =>
    obtain ⟨k', v'⟩ := hd
    by_cases hk : k' = k
    · subst hk; simp [alFind]
    · simp [alFind, hk] at h ⊢
      exact ih h

theorem alFind_append_right {β : Type} (k : String) (l₁ l₂ : List (String × β))
    (h : alFind k l₁ = none) :
    alFind k (l₁ ++ l₂) = alFind k l₂ := by
  induction l₁ with
  | nil => simp
  | cons hd tl ih =>
    obtain ⟨k', v'⟩ := hd
    by_cases hk : k' = k
    · subst hk; simp [alFind] at h
    · simp [alFind, hk] at h ⊢
      exact ih h

theorem alFind_none_of_not_mem_keys {β : Type} (k : String) (l : List (String × β))
    (h : k ∉ l.map Prod.fst) : alFind k l = none := by
  induction l with
  | nil => simp [alFind]
  | cons hd tl ih =>
    obtain ⟨k', v'⟩ := hd
    have h1 : ¬ k' = k := fun hh => h (by simp [hh])
    have h2 : k ∉ tl.map Prod.fst := fun hh => h (by simp [hh])
    simp [alFind, h1, ih h2]

theorem alModify_append_of_not_mem {β : Type} (k : String) (f : β → β)
    (l₁ l₂ : List (String × β)) (h : k ∉ l₁.map Prod.fst) :
    alModify k f (l₁ ++ l₂) = l₁ ++ alModify k f l₂ := by
  induction l₁ with
  | nil => simp
  | cons hd tl ih =>
    obtain ⟨k', v'⟩ := hd
    have h1 : ¬ k' = k := fun hh => h (by simp [hh.symm])
    have h2 : k ∉ tl.map Prod.fst := fun hh => h (by simp [hh])
    simp [alModify, h1, ih h2]

theorem updateFirstBody_spec (k : String) (val : List String) (raw : String)
    (rawVal : List String) (b₁ b₂ : List BodyOpt) (e : BodyOpt)
    (he : e.option = k) (hb : ∀ x ∈ b₁, x.option ≠ k) :
    updateFirstBody k val raw rawVal (b₁ ++ e :: b₂) =
      b₁ ++ { e with value := val, raw := raw, rawValue := rawVal } :: b₂ := by
  induction b₁ with
  | nil => simp [updateFirstBody, he]
  | cons hd tl ih =>
    have hhd : hd.option ≠ k := hb hd (by simp)
    simp [updateFirstBody, hhd]
    exact ih (fun x hx => hb x (by simp [hx]))

/-! ### Claim C1: fallback semantics of `get` -/

/-- Claim C1 is wrong about the code: `get`'s `except` clause tests
`if fallback is not _UNSET: raise`, the opposite of its own docstring.  On a
document with section `ab` (holding only option `k`), `get("ab", "o", "X")`
re-raises `NoOptionError` instead of returning the fallback `"X"`, and
`get("ab", "o")` without a fallback returns the `_UNSET` sentinel instead of
raising.  This theorem evaluates the embedded code at that failing input. -/
theorem c1_get_fallback_inverted :
    (parseConfig Parser.init ["[ab]\n", "k: v\n"]).map
        (fun p => (p.get "ab" "o" (some (.str "X")), p.get "ab" "o" none)) =
      .ok (.error (.noOption "o" "ab"), .ok .unset) := by
  decide

/-! ### Claim C3: `has_option` on an absent section -/

/-- Claim C3 is wrong about the code: `has_option` evaluates
`option in self._options.get(section)`, so for a section that has no entry in
`self._options` the membership test is applied to `None` and raises
`TypeError` instead of returning `False`.  This happens both on a fresh
parser (section absent entirely) and on a parsed document whose section `ab`
exists but holds no options. -/
theorem c3_hasOption_raises :
    Parser.init.hasOption "s" "o" = .error .typeError ∧
      (parseConfig Parser.init ["[ab]\n"]).map (fun p => p.hasOption "ab" "x") =
        .ok (.error .typeError) := by
  constructor <;> decide

/-! ### Claim C4: `options` on an absent section -/

/-- Counterexample to claim C4: `options` is literally
`return self._options.get(section)`.  On a fresh parser, and on a parsed
document without section `zz`, `options("zz")` evaluates to `None` — a
returned value, not a raised `SectionNotFound`; the function's type in the
embedding (`Option`, not `Except`) records that it cannot raise at all. -/
theorem c4_options_no_raise :
    Parser.init.optionsFn "zz" = none ∧
      (parseConfig Parser.init ["[ab]\n"]).map (fun p => p.optionsFn "zz") =
        .ok none := by
  constructor <;> decide

/-- Amended claim C4: `options(section)` never raises.  It returns the
section's option-name-to-value dict — whose keys, in insertion order, are the
option names — when the section has recorded options, and returns `None` both
when the section is absent and when the section exists but has no recorded
options (here `[cd]` parsed with no options below it). -/
theorem c4_options_amended :
    (parseConfig Parser.init ["[ab]\n", "x: 1\n", "y: 2\n", "[cd]\n"]).map
        (fun p => p.optionsFn "ab") = .ok (some [("x", .str "1"), ("y", .str "2")]) ∧
      (parseConfig Parser.init ["[ab]\n", "x: 1\n", "y: 2\n", "[cd]\n"]).map
        (fun p => (p.optionsFn "cd", p.optionsFn "zz")) = .ok (none, none) := by
  constructor <;> decide

/-! ### Claim C5: `getfloat` conversion -/

/-- Claim C5 is right and the code is wrong: `getfloat` passes `int` — not
`float` — to `_get_conv`, so the stored value `"1.5"`, a perfectly valid
float literal, raises a conversion `ValueError` instead of being returned.
This theorem evaluates the embedded code at that failing input (and shows
`getint` behaves identically, pinpointing the copy-paste slip). -/
theorem c5_getfloat_uses_int :
    (parseConfig Parser.init ["[ab]\n", "o: 1.5\n"]).map
        (fun p => (p.getfloat "ab" "o" none, p.getint "ab" "o" none)) =
      .ok (.error (.valueError "1.5"), .error (.valueError "1.5")) := by
  decide

/-! ### Claim C10: the shape of the stored value across parse and set -/

/-- Claim C10 holds: after parsing the line `"k: v\n"`, `get` returns the
plain string `"v"`; after `set("ab", "k", "v")` with the same single-line
value, `get` returns the one-element list `["v"]` — the lookup record does
not keep one shape of value across parsing and mutation. -/
theorem c10_value_shape :
    (do
      let p ← parseConfig Parser.init ["[ab]\n", "k: v\n"]
      let q ← p.set "ab" "k" "v" false 2
      pure (p.get "ab" "k" none, q.get "ab" "k" none) :
        Except PyErr (Except PyErr GetRes × Except PyErr GetRes)) =
      .ok (.ok (.val (.str "v")), .ok (.val (.list ["v"]))) := by
  decide

/-! ### Claim C7: classification of a bracketed line with a trailing value -/

/-- Counterexample to claim C7: the line `"[x]: y"` does not classify as a
Section at all — `_SECTION_RE` requires at least two word characters inside
the brackets and tolerates only whitespace or a comment after `]`. -/
theorem c7_not_section :
    ¬ classifyLine "[x]: y" = .sec "x" := by
  decide

/-- Amended claim C7: `"[x]: y"` matches none of the five patterns — it is
neither a Section (the name has a single word character and `": y"` follows
the bracket) nor an Option (`_OPTION_RE` requires the line to start with
whitespace and a word character, not `[`): it is unclassified.  The
section and option patterns are in fact mutually exclusive, so the priority
order never has to decide between them. -/
theorem c7_unclassified :
    classifyLine "[x]: y" = .other ∧ isSectionLine "[x]: y" = false ∧
      isOptionLine "[x]: y" = false := by
  refine ⟨by decide, by decide, by decide⟩

/-! ### Claim C6, counterexample: duplicate multiline-start definitions -/

/-- Counterexample to claim C6: a section containing the multiline-start line
`"k:\n"` twice parses without any `DuplicateOptionError`; the duplicate is
silently recorded as a second body entry with the same name. -/
theorem c6_dup_mlstart_not_detected :
    (parseConfig Parser.init ["[ab]\n", "k:\n", "k:\n"]).map
        (fun p => (alFind "ab" p.config).map (fun sc => sc.body.map (·.option))) =
      .ok (some ["k", "k"]) := by
  decide

/-- Inversion of the classifier: a line classified as an Option is matched
by `_OPTION_RE` and not by `_SECTION_RE`. -/
theorem classify_opt_inv (line : String) (n v : String)
    (h : classifyLine line = .opt n v) :
    sectionName line = none ∧ optionNV line = some (n, v) := by
  cases h1 : sectionName line with
  | some m => simp [classifyLine, h1] at h
  | none =>
    cases h2 : optionNV line with
    | none =>
      cases h3 : mlName line with
      | some m => simp [classifyLine, h1, h2, h3] at h
      | none =>
        by_cases hc : (isCommentLine line || isEmptyLine line) = true
        · simp [classifyLine, h1, h2, h3, hc] at h
        · simp [classifyLine, h1, h2, h3, hc] at h
    | some nv =>
      obtain ⟨n', v'⟩ := nv
      simp only [classifyLine, h1, h2, LKind.opt.injEq] at h
      obtain ⟨hn, hv⟩ := h
      subst hn
      subst hv
      exact ⟨rfl, rfl⟩

/-- Amended claim C6, raising part: in any parser state whose current section
`s` already records option name `n`, a line that classifies as a single-line
option definition of `n` makes the parse step raise `DuplicateOptionError` —
the duplicate is never merged or overwritten. -/
theorem c6_dup_single_raises (p : Parser) (cm s line n v : String)
    (opts : List (String × Value))
    (hclass : classifyLine line = .opt n v)
    (hcur : p.currSect = s)
    (hopts : alFind s p.options = some opts)
    (hmem : alMem n opts = true) :
    parseLineStep (p, cm) line = .error (.dupOption n s) := by
  obtain ⟨hsec, hopt⟩ := classify_opt_inv line n v hclass
  subst hcur
  simp [parseLineStep, isSectionLine, isOptionLine, hsec, hopt, parseOption,
    hopts, hmem, Except.map]

/-- Closed witness for `c6_dup_single_raises`: a parser whose section `ab`
already records option `k` rejects the line `"k: 2\n"`. -/
theorem c6_dup_single_raises_witness :
    parseLineStep
      (⟨[("ab", ⟨"[ab]\n", [⟨false, "k", ["1"], "k: 1\n", ["1"]⟩]⟩)], [],
        ["ab"], [("ab", [("k", .str "1")])], "ab", false⟩, "") "k: 2\n" =
      .error (.dupOption "k" "ab") :=
  c6_dup_single_raises _ "" "ab" "k: 2\n" "k" "2" [("k", .str "1")]
    (by decide) rfl (by decide) (by decide)

/-! ### Claim C9: in-place update and append behaviour of `set` -/

/-- Counterexample to claim C9's unconditional append branch: on a document
whose section was parsed with no options (here `["[ab]\n"]`), the section
exists, yet `set("ab", "k", "v")` does not append — `_parse_section` never
created an `_options` entry for `ab`, so the test
`option not in self._options.get(section)` is a membership test on `None`
and raises `TypeError`. -/
theorem c9_set_optionless_raises :
    (parseConfig Parser.init ["[ab]\n"]).map (fun p => p.hasSection "ab") =
        .ok true ∧
      (parseConfig Parser.init ["[ab]\n"]).map
        (fun p => p.set "ab" "k" "v" false 2) = .ok (.error .typeError) := by
  constructor <;> decide

/-- Amended claim C9: on a section `s` present in the document *whose option
dict is recorded in `_options`* (at least one option was parsed or set for
it), `set(s, k, v)` with a single-line value either updates the body entry
of `k` in place — keeping its position, replacing `value`, `_raw` (which
becomes `"k: v\n"`) and `_raw_value`, touching no other entry — or, when `k`
is not recorded for `s`, appends a fresh single-line entry at the end of the
body; all other sections are unchanged in both cases.  Without that proviso
the append branch fails: a section parsed with no options makes `set` raise
`TypeError` (see the counterexample above). -/
theorem c9_set_inplace (p : Parser) (s k v : String) (sc : SectCfg)
    (opts : List (String × Value))
    (hs : s ∈ p.sections)
    (hc : alFind s p.config = some sc)
    (ho : alFind s p.options = some opts)
    (hnl : v.data.contains '\n' = false) :
    (∀ b₁ e b₂, alMem k opts = true →
      sc.body = b₁ ++ e :: b₂ → e.option = k → (∀ x ∈ b₁, x.option ≠ k) →
      ∃ p', p.set s k v false 2 = .ok p' ∧
        alFind s p'.config = some { sc with body := b₁ ++ updatedEntry e k v :: b₂ } ∧
        (∀ t, t ≠ s → alFind t p'.config = alFind t p.config)) ∧
    (alMem k opts = false →
      ∃ p', p.set s k v false 2 = .ok p' ∧
        alFind s p'.config = some { sc with body := sc.body ++ [singleEntry k v] } ∧
        (∀ t, t ≠ s → alFind t p'.config = alFind t p.config)) := by
  have hns : ¬ s ∉ p.sections := fun hh => hh hs
  constructor
  · intro b₁ e b₂ hmem hbody he hb₁
    have hset : p.set s k v false 2 =
        .ok { p with
              config := alModify s (setUpdateSect k v) p.config
              options := alModify s (alSet k (Value.list [v])) p.options } := by
      simp only [Parser.set, hns, if_false, hnl, Bool.false_or, ho, hc, hmem,
        Bool.not_true, Bool.false_eq_true, if_false, setUpdateSect]
      rfl
    refine ⟨_, hset, ?_, ?_⟩
    · rw [alFind_alModify_self s _ p.config sc hc]
      simp only [setUpdateSect]
      rw [hbody, updateFirstBody_spec k [v] _ _ b₁ b₂ e he hb₁]
      rfl
    · intro t ht
      exact alFind_alModify_ne t s _ p.config ht
  · intro hmem
    have hset : p.set s k v false 2 =
        .ok { p with
              config := alModify s (setAppendSect k v) p.config
              options := alModify s (alSet k (Value.list [v])) p.options } := by
      simp only [Parser.set, hns, if_false, hnl, Bool.false_or, ho, hc, hmem,
        Bool.not_false, if_true, setAppendSect, singleEntry]
      rfl
    refine ⟨_, hset, ?_, ?_⟩
    · rw [alFind_alModify_self s _ p.config sc hc]
      simp only [setAppendSect]
    · intro t ht
      exact alFind_alModify_ne t s _ p.config ht

/-- Closed witness for `c9_set_inplace`, exercising both branches on the
two-section document `sampleDoc`: updating existing option `k` of section
`ab` in place, and appending missing option `z`. -/
theorem c9_set_inplace_witness :
    (∃ p', sampleDoc.set "ab" "k" "w" false 2 = .ok p' ∧
      alFind "ab" p'.config =
        some ⟨"[ab]\n", [updatedEntry ⟨false, "k", ["v"], "k: v\n", ["v"]⟩ "k" "w"]⟩ ∧
      (∀ t, t ≠ "ab" → alFind t p'.config = alFind t sampleDoc.config)) ∧
    (∃ p', sampleDoc.set "ab" "z" "u" false 2 = .ok p' ∧
      alFind "ab" p'.config =
        some ⟨"[ab]\n", [⟨false, "k", ["v"], "k: v\n", ["v"]⟩, singleEntry "z" "u"]⟩ ∧
      (∀ t, t ≠ "ab" → alFind t p'.config = alFind t sampleDoc.config)) := by
  constructor
  · exact (c9_set_inplace sampleDoc "ab" "k" "w" ⟨"[ab]\n",
      [⟨false, "k", ["v"], "k: v\n", ["v"]⟩]⟩ [("k", .str "v")] (by decide) (by decide)
      (by decide) (by decide)).1 [] ⟨false, "k", ["v"], "k: v\n", ["v"]⟩ []
      (by decide) rfl rfl (by intro x hx; simp at hx)
  · exact (c9_set_inplace sampleDoc "ab" "z" "u" ⟨"[ab]\n",
      [⟨false, "k", ["v"], "k: v\n", ["v"]⟩]⟩ [("k", .str "v")] (by decide) (by decide)
      (by decide) (by decide)).2 (by decide)

/-! ### Claim C2, counterexample: classification alone does not give round-trip -/

/-- Counterexample to claim C2: in the input `["x: 1\n"]` every line
classifies under the grammar of §4.1 (the single line is an Option), yet
parsing does not produce a document: `_parse_option` reaches
`self._config[self.curr_sect_name]` with no section ever opened and raises
`KeyError`, so nothing can be rendered, let alone the original text. -/
theorem c2_classified_input_can_crash :
    classifyLine "x: 1\n" = .opt "x" "1" ∧
      parseConfig Parser.init ["x: 1\n"] = .error (.keyError "") := by
  constructor <;> decide

/-! ### Claim C8: shape of recognized section names -/

theorem takeWhile_app_of_all {p : Char → Bool} {l : List Char} (r : List Char)
    (h : l.all p = true) : (l ++ r).takeWhile p = l ++ r.takeWhile p := by
  induction l with
  | nil => simp
  | cons a t ih =>
    simp only [List.all_cons, Bool.and_eq_true] at h
    simp [List.takeWhile_cons, h.1, ih h.2]

theorem dropWhile_app_of_all {p : Char → Bool} {l : List Char} (r : List Char)
    (h : l.all p = true) : (l ++ r).dropWhile p = r.dropWhile p := by
  induction l with
  | nil => simp
  | cons a t ih =>
    simp only [List.all_cons, Bool.and_eq_true] at h
    simp [List.dropWhile_cons, h.1, ih h.2]

theorem count_space_of_word {w : List Char} (h : w.all isWordChar = true) :
    w.count ' ' = 0 := by
  induction w with
  | nil => simp
  | cons a t ih =>
    simp only [List.all_cons, Bool.and_eq_true] at h
    have ha : ¬ (' ' = a) := by
      intro hh
      rw [← hh] at h
      exact absurd h.1 (by decide)
    simp [List.count_cons, ih h.2, ha]

theorem wordOrSpace_of_all {w : List Char} (h : w.all isWordChar = true) :
    w.all (fun x => isWordChar x || x == ' ') = true := by
  simp only [List.all_eq_true] at h ⊢
  intro x hx
  simp [h x hx]

theorem getLast_word_of_all {w : List Char} (hne : w ≠ [])
    (hall : w.all isWordChar = true) :
    (match w.getLast? with | some x => isWordChar x | none => false) = true := by
  cases hgl : w.getLast? with
  | none => exact absurd (List.getLast?_eq_none_iff.mp hgl) hne
  | some x =>
    have hx : x ∈ w := by
      have h1 := List.getLast?_eq_getLast w hne
      rw [h1] at hgl
      obtain rfl : x = w.getLast hne := by
        injection hgl with hh
        exact hh.symm
      exact List.getLast_mem hne
    exact (List.all_eq_true.mp hall) x hx

theorem validSecName_of_word {w : List Char} (hne : w ≠ [])
    (hall : w.all isWordChar = true) :
    validSecName w = decide (2 ≤ w.length) := by
  obtain ⟨c, t, rfl⟩ : ∃ c t, w = c :: t := by
    cases w with
    | nil => exact absurd rfl hne
    | cons c t => exact ⟨c, t, rfl⟩
  simp only [List.all_cons, Bool.and_eq_true] at hall
  simp [validSecName, wordOrSpace_of_all (w := c :: t) (by simp [hall.1, hall.2]),
    count_space_of_word (w := c :: t) (by simp [hall.1, hall.2]), hall.1,
    getLast_word_of_all (w := c :: t) (by simp) (by simp [hall.1, hall.2])]

theorem sectionName_bracket (n : List Char)
    (hn : n.all (fun c => isWordChar c || c == ' ') = true) :
    sectionName ⟨'[' :: (n ++ [']'])⟩ =
      (if validSecName n = true then some ⟨n⟩ else none) := by
  have hcore : lineCore ('[' :: (n ++ [']'])) = '[' :: (n ++ [']']) := by
    have hgl : ('[' :: (n ++ [']'])).getLast? = some ']' := by
      have heq : '[' :: (n ++ [']']) = ('[' :: n) ++ [']'] := by simp
      rw [heq, List.getLast?_concat]
    simp [lineCore, hgl]
  have hdw : ('[' :: (n ++ [']'])).dropWhile isPySpace = '[' :: (n ++ [']']) := by
    simp [List.dropWhile_cons, isPySpace]
  have htw : (n ++ [']']).takeWhile (fun c => isWordChar c || c == ' ') = n := by
    rw [takeWhile_app_of_all _ hn]
    simp [List.takeWhile_cons, show isWordChar ']' = false from by decide]
  have hdw2 : (n ++ [']']).dropWhile (fun c => isWordChar c || c == ' ') = [']'] := by
    rw [dropWhile_app_of_all _ hn]
    simp [List.dropWhile_cons, show isWordChar ']' = false from by decide]
  simp only [sectionName, String.data]
  simp only [hcore, hdw, htw, hdw2, sectionTailOk]
  by_cases hv : validSecName n = true
  · simp [hv, List.dropWhile]
  · simp only [Bool.not_eq_true] at hv
    simp [hv, List.dropWhile]

theorem validSecName_two_tokens (w₁ w₂ : List Char) (h1 : w₁ ≠ []) (h2 : w₂ ≠ [])
    (a1 : w₁.all isWordChar = true) (a2 : w₂.all isWordChar = true) :
    validSecName (w₁ ++ ' ' :: w₂) = true := by
  obtain ⟨c, t, rfl⟩ : ∃ c t, w₁ = c :: t := by
    cases w₁ with
    | nil => exact absurd rfl h1
    | cons c t => exact ⟨c, t, rfl⟩
  simp only [List.all_cons, Bool.and_eq_true] at a1
  have hws : ((c :: t) ++ ' ' :: w₂).all (fun x => isWordChar x || x == ' ') = true := by
    simp only [List.all_append, List.all_cons, Bool.and_eq_true]
    refine ⟨by simp [a1.1, wordOrSpace_of_all a1.2], by simp, ?_⟩
    have := wordOrSpace_of_all a2
    simpa using this
  have hcount : ((c :: t) ++ ' ' :: w₂).count ' ' = 1 := by
    have hcsp : ¬ (' ' = c) := fun hh => absurd (hh ▸ a1.1) (by decide)
    simp [List.count_append, List.count_cons, count_space_of_word a1.2,
      count_space_of_word a2, hcsp]
  have hlast : (match ((c :: t) ++ ' ' :: w₂).getLast? with
      | some x => isWordChar x | none => false) = true := by
    have hgl : ((c :: t) ++ ' ' :: w₂).getLast? = w₂.getLast? := by
      rw [List.getLast?_append]
      have : (' ' :: w₂).getLast? = w₂.getLast? := by
        rw [show (' ' :: w₂) = [' '] ++ w₂ from rfl, List.getLast?_append]
        cases hg : w₂.getLast? with
        | none => exact absurd (List.getLast?_eq_none_iff.mp hg) h2
        | some x => simp
      rw [this]
      cases hg : w₂.getLast? with
      | none => exact absurd (List.getLast?_eq_none_iff.mp hg) h2
      | some x => simp
    rw [hgl]
    exact getLast_word_of_all h2 a2
  have hlen : 2 ≤ ((c :: t) ++ ' ' :: w₂).length := by
    simp
    omega
  simp only [validSecName, hws, hlast]
  simp only [List.cons_append] at hcount
  simp [hlen, a1.1]
  refine ⟨by omega, by omega⟩

theorem validSecName_two_spaces (w₁ w₂ : List Char) :
    validSecName (w₁ ++ ' ' :: ' ' :: w₂) = false := by
  have hcount : decide ((w₁ ++ ' ' :: ' ' :: w₂).count ' ' ≤ 1) = false := by
    apply decide_eq_false
    intro hcc
    have h2 : 2 ≤ (w₁ ++ ' ' :: ' ' :: w₂).count ' ' := by
      simp [List.count_append, List.count_cons]
      omega
    omega
  simp [validSecName]
  intro h1 h2 h3 hcc h5
  exact absurd hcc (by omega)


/-- Counterexample to claim C8: the single-character name `"[a]"` is not
recognized as a section, because the capture group of `_SECTION_RE` is
`\w+ ?\w+`, which requires at least two word characters. -/
theorem c8_single_char_not_section :
    isSectionLine "[a]" = false ∧ sectionName "[a]" = none := by
  constructor <;> decide

/-- Amended claim C8: for a word token `w` (letters/digits/underscores), the
line `"[" ++ w ++ "]"` is a Section with name `w` exactly when `w` has at
least two characters; two word tokens separated by exactly one space are
recognized (even two single-character tokens), and two internal spaces are
not. -/
theorem c8_section_name_shape :
    (∀ w : List Char, w ≠ [] → w.all isWordChar = true →
      sectionName ⟨'[' :: (w ++ [']'])⟩ =
        (if 2 ≤ w.length then some ⟨w⟩ else none)) ∧
    (∀ w₁ w₂ : List Char, w₁ ≠ [] → w₂ ≠ [] →
      w₁.all isWordChar = true → w₂.all isWordChar = true →
      isSectionLine ⟨'[' :: ((w₁ ++ ' ' :: w₂) ++ [']'])⟩ = true ∧
      isSectionLine ⟨'[' :: ((w₁ ++ ' ' :: ' ' :: w₂) ++ [']'])⟩ = false) := by
  constructor
  · intro w hne hall
    rw [sectionName_bracket w (wordOrSpace_of_all hall),
      validSecName_of_word hne hall]
    by_cases hlen : 2 ≤ w.length
    · simp [hlen]
    · simp [hlen]
  · intro w₁ w₂ h1 h2 a1 a2
    have hws : (w₁ ++ ' ' :: w₂).all (fun x => isWordChar x || x == ' ') = true := by
      simp only [List.all_append, List.all_cons, Bool.and_eq_true]
      exact ⟨wordOrSpace_of_all a1, by simp, by simpa using wordOrSpace_of_all a2⟩
    have hws2 : (w₁ ++ ' ' :: ' ' :: w₂).all (fun x => isWordChar x || x == ' ') = true := by
      simp only [List.all_append, List.all_cons, Bool.and_eq_true]
      exact ⟨wordOrSpace_of_all a1, by simp, by simp, by simpa using wordOrSpace_of_all a2⟩
    constructor
    · rw [isSectionLine, sectionName_bracket _ hws,
        validSecName_two_tokens w₁ w₂ h1 h2 a1 a2]
      simp
    · rw [isSectionLine, sectionName_bracket _ hws2, validSecName_two_spaces w₁ w₂]
      simp

/-- Closed witness for `c8_section_name_shape`: instantiated at the names
`ab` (recognized), `a` (not recognized), `a b` (recognized) and `a  b` (not
recognized). -/
theorem c8_section_name_shape_witness :
    (sectionName ⟨'[' :: (['a', 'b'] ++ [']'])⟩ =
      (if 2 ≤ (['a', 'b'] : List Char).length then some ⟨['a', 'b']⟩ else none)) ∧
    (sectionName ⟨'[' :: (['a'] ++ [']'])⟩ =
      (if 2 ≤ (['a'] : List Char).length then some ⟨['a']⟩ else none)) ∧
    isSectionLine ⟨'[' :: ((['a'] ++ ' ' :: ['b']) ++ [']'])⟩ = true ∧
    isSectionLine ⟨'[' :: ((['a'] ++ ' ' :: ' ' :: ['b']) ++ [']'])⟩ = false :=
  ⟨c8_section_name_shape.1 ['a', 'b'] (by decide) (by decide),
   c8_section_name_shape.1 ['a'] (by decide) (by decide),
   (c8_section_name_shape.2 ['a'] ['b'] (by decide) (by decide) (by decide) (by decide)).1,
   (c8_section_name_shape.2 ['a'] ['b'] (by decide) (by decide) (by decide) (by decide)).2⟩

/-! ### String-join and dictionary lemmas for the round-trip proof -/

theorem join_acc (l : List String) : ∀ a : String,
    l.foldl (fun r s => r ++ s) a = a ++ String.join l := by
  induction l with
  | nil => intro a; simp [String.join]
  | cons s t ih =>
    intro a
    show t.foldl (fun r s => r ++ s) (a ++ s) = a ++ String.join (s :: t)
    rw [ih (a ++ s)]
    show a ++ s ++ String.join t = a ++ (String.join (s :: t))
    have : String.join (s :: t) = s ++ String.join t := by
      show t.foldl (fun r s => r ++ s) ("" ++ s) = s ++ String.join t
      rw [ih ("" ++ s), String.empty_append]
    rw [this, String.append_assoc]

theorem join_cons (s : String) (l : List String) :
    String.join (s :: l) = s ++ String.join l := by
  show l.foldl (fun r s => r ++ s) ("" ++ s) = s ++ String.join l
  rw [join_acc l ("" ++ s), String.empty_append]

theorem join_append (l₁ l₂ : List String) :
    String.join (l₁ ++ l₂) = String.join l₁ ++ String.join l₂ := by
  induction l₁ with
  | nil => simp [String.join]
  | cons s t ih =>
    rw [List.cons_append, join_cons, join_cons, ih, String.append_assoc]

theorem join_singleton (s : String) : String.join [s] = s := by
  rw [join_cons]
  show s ++ String.join [] = s
  rw [show String.join [] = "" from rfl, String.append_empty]

theorem alFind_mem {β : Type} {k : String} {v : β} {l : List (String × β)}
    (h : alFind k l = some v) : (k, v) ∈ l := by
  induction l with
  | nil => simp [alFind] at h
  | cons hd tl ih =>
    obtain ⟨k', v'⟩ := hd
    by_cases hk : k' = k
    · subst hk
      simp [alFind] at h
      simp [h]
    · simp only [alFind, hk, if_false, if_neg hk] at h
      simp [ih h]

theorem alSet_mem_or {β : Type} {k : String} {v : β} {l : List (String × β)} :
    ∀ nv ∈ alSet k v l, nv = (k, v) ∨ nv ∈ l := by
  induction l with
  | nil => simp [alSet]
  | cons hd tl ih =>
    obtain ⟨k', v'⟩ := hd
    by_cases hk : k' = k
    · subst hk
      intro nv hnv
      simp only [alSet, if_pos rfl] at hnv
      rcases List.mem_cons.mp hnv with h | h
      · exact Or.inl h
      · exact Or.inr (List.mem_cons.mpr (Or.inr h))
    · intro nv hnv
      simp only [alSet, hk, if_false, if_neg hk] at hnv
      rcases List.mem_cons.mp hnv with h | h
      · exact Or.inr (List.mem_cons.mpr (Or.inl h))
      · rcases ih nv h with h' | h'
        · exact Or.inl h'
        · exact Or.inr (List.mem_cons.mpr (Or.inr h'))

theorem alFind_isSome_of_mem_keys {β : Type} {k : String} {l : List (String × β)}
    (h : k ∈ l.map Prod.fst) : (alFind k l).isSome := by
  induction l with
  | nil => simp at h
  | cons hd tl ih =>
    obtain ⟨k', v'⟩ := hd
    by_cases hk : k' = k
    · simp [alFind, hk]
    · have : k ∈ tl.map Prod.fst := by
        simp only [List.map_cons, List.mem_cons] at h
        rcases h with h' | h'
        · exact absurd h'.symm hk
        · exact h'
      simp [alFind, hk, ih this]


theorem stripChars_of_all_ws {l : List Char} (h : l.all isPySpace = true) :
    stripChars l = [] := by
  have h1 : l.dropWhile isPySpace = [] := by
    rw [List.dropWhile_eq_nil_iff]
    intro x hx
    exact (List.all_eq_true.mp h) x hx
  simp [stripChars, h1]

theorem stripChars_ne_of_not_all_ws {l : List Char} (h : l.all isPySpace = false) :
    stripChars l ≠ [] := by
  obtain ⟨c, hc, hcw⟩ : ∃ c ∈ l, ¬ isPySpace c = true := by
    rcases List.all_eq_false.mp h with ⟨c, hc, hcw⟩
    exact ⟨c, hc, by simp [hcw]⟩
  have h1 : c ∈ l.dropWhile isPySpace := by
    have hsplit := List.takeWhile_append_dropWhile (p := isPySpace) (l := l)
    rcases List.mem_append.mp (by rw [hsplit]; exact hc) with h' | h'
    · exact absurd (List.mem_takeWhile_imp h') hcw
    · exact h'
  have h2 : c ∈ (l.dropWhile isPySpace).reverse.dropWhile isPySpace := by
    have hsplit := List.takeWhile_append_dropWhile (p := isPySpace)
      (l := (l.dropWhile isPySpace).reverse)
    have hcrev : c ∈ (l.dropWhile isPySpace).reverse := List.mem_reverse.mpr h1
    rcases List.mem_append.mp (by rw [hsplit]; exact hcrev) with h' | h'
    · exact absurd (List.mem_takeWhile_imp h') hcw
    · exact h'
  intro hcon
  rw [stripChars] at hcon
  rw [List.reverse_eq_nil_iff.mp hcon] at h2
  exact absurd h2 (List.not_mem_nil c)

theorem pyStrip_empty_iff (line : String) :
    pyStrip line = "" ↔ isEmptyLine line = true := by
  constructor
  · intro h
    by_cases he : line.data.all isPySpace = true
    · exact he
    · exfalso
      have := stripChars_ne_of_not_all_ws (by simpa using he)
      have hdata : (pyStrip line).data = stripChars line.data := rfl
      rw [h] at hdata
      exact this hdata.symm
  · intro h
    have : stripChars line.data = [] := stripChars_of_all_ws h
    show (⟨stripChars line.data⟩ : String) = ""
    rw [this]

theorem classify_sec_inv {line n : String} (h : classifyLine line = .sec n) :
    sectionName line = some n := by
  cases h1 : sectionName line with
  | some m =>
    simp only [classifyLine, h1, LKind.sec.injEq] at h
    rw [h]
  | none =>
    cases h2 : optionNV line with
    | none =>
      cases h3 : mlName line with
      | some m => simp [classifyLine, h1, h2, h3] at h
      | none =>
        by_cases hc : (isCommentLine line || isEmptyLine line) = true
        · simp [classifyLine, h1, h2, h3, hc] at h
        · simp [classifyLine, h1, h2, h3, hc] at h
    | some nv =>
      obtain ⟨n', v'⟩ := nv
      simp [classifyLine, h1, h2] at h

theorem classify_ml_inv {line n : String} (h : classifyLine line = .mlstart n) :
    sectionName line = none ∧ optionNV line = none ∧ mlName line = some n := by
  cases h1 : sectionName line with
  | some m => simp [classifyLine, h1] at h
  | none =>
    cases h2 : optionNV line with
    | some nv =>
      obtain ⟨n', v'⟩ := nv
      simp [classifyLine, h1, h2] at h
    | none =>
      cases h3 : mlName line with
      | some m =>
        simp only [classifyLine, h1, h2, h3, LKind.mlstart.injEq] at h
        exact ⟨rfl, rfl, by rw [h]⟩
      | none =>
        by_cases hc : (isCommentLine line || isEmptyLine line) = true
        · simp [classifyLine, h1, h2, h3, hc] at h
        · simp [classifyLine, h1, h2, h3, hc] at h

theorem classify_fill_inv {line : String} (h : classifyLine line = .fill) :
    sectionName line = none ∧ optionNV line = none ∧ mlName line = none ∧
      (isCommentLine line || isEmptyLine line) = true := by
  cases h1 : sectionName line with
  | some m => simp [classifyLine, h1] at h
  | none =>
    cases h2 : optionNV line with
    | some nv =>
      obtain ⟨n', v'⟩ := nv
      simp [classifyLine, h1, h2] at h
    | none =>
      cases h3 : mlName line with
      | some m => simp [classifyLine, h1, h2, h3] at h
      | none =>
        by_cases hc : (isCommentLine line || isEmptyLine line) = true
        · exact ⟨rfl, rfl, rfl, hc⟩
        · simp [classifyLine, h1, h2, h3, hc] at h

theorem classify_other_inv {line : String} (h : classifyLine line = .other) :
    sectionName line = none ∧ optionNV line = none ∧ mlName line = none ∧
      isCommentLine line = false ∧ isEmptyLine line = false := by
  cases h1 : sectionName line with
  | some m => simp [classifyLine, h1] at h
  | none =>
    cases h2 : optionNV line with
    | some nv =>
      obtain ⟨n', v'⟩ := nv
      simp [classifyLine, h1, h2] at h
    | none =>
      cases h3 : mlName line with
      | some m => simp [classifyLine, h1, h2, h3] at h
      | none =>
        by_cases hc : (isCommentLine line || isEmptyLine line) = true
        · simp [classifyLine, h1, h2, h3, hc] at h
        · simp only [Bool.or_eq_true, not_or, Bool.not_eq_true] at hc
          exact ⟨rfl, rfl, rfl, hc.1, hc.2⟩

theorem sectionName_length {line n : String} (h : sectionName line = some n) :
    2 ≤ n.length := by
  simp only [sectionName] at h
  split at h
  · split at h
    · split at h
      · rename_i hcond
        simp only [Bool.and_eq_true, validSecName, decide_eq_true_eq] at hcond
        injection h with hh
        rw [← hh]
        exact hcond.1.1.1.1.1
      · exact absurd h (by simp)
    · exact absurd h (by simp)
  · exact absurd h (by simp)


theorem sectionName_ne_empty {line n : String} (h : sectionName line = some n) :
    n ≠ "" := by
  intro hn
  have := sectionName_length h
  rw [hn] at this
  exact absurd this (by decide)

theorem optScan_name_ne {core w r : List Char}
    (h : optScan core = some (w, r)) : w ≠ [] := by
  have hw : w = (core.dropWhile isPySpace).takeWhile isWordChar := by
    simp only [optScan] at h
    split at h
    · exact absurd h (by simp)
    · split at h
      · split at h
        · simp only [Option.some.injEq, Prod.mk.injEq] at h
          exact h.1.symm
        · exact absurd h (by simp)
      · exact absurd h (by simp)
  have hne : ¬ ((core.dropWhile isPySpace).takeWhile isWordChar).isEmpty = true := by
    simp only [optScan] at h
    split at h
    · exact absurd h (by simp)
    · rename_i hcond
      exact hcond
  rw [hw]
  intro hnil
  rw [hnil] at hne
  simp at hne

theorem optionNV_name_ne {line n v : String} (h : optionNV line = some (n, v)) :
    n ≠ "" := by
  simp only [optionNV] at h
  split at h
  · rename_i w c tail heq
    split at h
    · simp at h
    · simp only [Option.some.injEq, Prod.mk.injEq] at h
      intro hn
      have hw : w ≠ [] := optScan_name_ne heq
      rw [← h.1] at hn
      have : w = [] := by
        have := congrArg String.data hn
        simpa using this
      exact hw this
  · simp at h

theorem mlName_name_ne {line n : String} (h : mlName line = some n) :
    n ≠ "" := by
  simp only [mlName] at h
  split at h
  · rename_i w c rest heq
    split at h
    · simp at h
    · simp only [Option.some.injEq] at h
      intro hn
      have hw : w ≠ [] := optScan_name_ne heq
      rw [← h] at hn
      have : w = [] := by
        have := congrArg String.data hn
        simpa using this
      exact hw this
  · rename_i w heq
    split at h
    · simp only [Option.some.injEq] at h
      intro hn
      have hw : w ≠ [] := optScan_name_ne heq
      rw [← h] at hn
      have : w = [] := by
        have := congrArg String.data hn
        simpa using this
      exact hw this
    · simp at h
  · simp at h

theorem config_split (l : List (String × SectCfg)) (s : String)
    (hlast : (l.map Prod.fst).getLast? = some s) (hnd : (l.map Prod.fst).Nodup) :
    ∃ l₁ c, l = l₁ ++ [(s, c)] ∧ s ∉ l₁.map Prod.fst ∧ alFind s l = some c := by
  have hne : l ≠ [] := by
    intro hl
    rw [hl] at hlast
    simp at hlast
  obtain ⟨l₁, q, hq⟩ : ∃ l₁ q, l = l₁ ++ [q] := ⟨l.dropLast, l.getLast hne, by
    rw [List.dropLast_concat_getLast hne]⟩
  obtain ⟨qk, qv⟩ := q
  have hqk : qk = s := by
    rw [hq] at hlast
    simp only [List.map_append, List.map_cons, List.map_nil] at hlast
    rw [List.getLast?_concat] at hlast
    have hh : qk = s := by simpa using hlast
    exact hh
  subst hqk
  have hnotmem : qk ∉ l₁.map Prod.fst := by
    rw [hq] at hnd
    simp only [List.map_append, List.map_cons, List.map_nil] at hnd
    rcases List.nodup_append.mp hnd with ⟨_, _, hdisj⟩
    intro hmem
    exact hdisj hmem (by simp)
  refine ⟨l₁, qv, hq, hnotmem, ?_⟩
  rw [hq, alFind_append_right qk l₁ _ (alFind_none_of_not_mem_keys qk l₁ hnotmem)]
  simp [alFind]

theorem alModify_last {β : Type} (s : String) (f : β → β) (l₁ : List (String × β))
    (c : β) (h : s ∉ l₁.map Prod.fst) :
    alModify s f (l₁ ++ [(s, c)]) = l₁ ++ [(s, f c)] := by
  rw [alModify_append_of_not_mem s f l₁ _ h]
  simp [alModify]

theorem render_body_append (c : SectCfg) (e : BodyOpt) :
    SectCfg.render { c with body := c.body ++ [e] } =
      c.render ++ (e.raw ++ (if e.is_multiline then String.join e.rawValue else "")) := by
  simp only [SectCfg.render, List.map_append, List.map_cons, List.map_nil,
    entryRender]
  rw [join_append, join_singleton, String.append_assoc]

theorem renderMap_append (l₁ l₂ : List (String × SectCfg)) :
    String.join ((l₁ ++ l₂).map (fun x => x.2.render)) =
      String.join (l₁.map (fun x => x.2.render)) ++
        String.join (l₂.map (fun x => x.2.render)) := by
  rw [List.map_append, join_append]

theorem write_config_split (p : Parser) (l₁ : List (String × SectCfg))
    (s : String) (c : SectCfg) (hcfg : p.config = l₁ ++ [(s, c)]) :
    p.write = String.join p.header ++
      String.join (l₁.map (fun x => x.2.render)) ++ c.render := by
  rw [Parser.write, hcfg, renderMap_append]
  simp only [List.map_cons, List.map_nil]
  rw [join_singleton, String.append_assoc]


theorem render_appendBody (c : SectCfg) (e : BodyOpt) :
    (appendBody e c).render = c.render ++ entryRender e := by
  simp only [appendBody]
  rw [render_body_append]
  simp [entryRender]

theorem entryRender_mk (o v line : String) :
    entryRender (mkBodyEntry o v line) = line := by
  simp [entryRender, mkBodyEntry]

theorem alFind_singleton_self {β : Type} (k : String) (v : β) :
    alFind k [(k, v)] = some v := by
  simp [alFind]

theorem alFind_singleton_ne {β : Type} (k t : String) (v : β) (h : ¬ t = k) :
    alFind t [(k, v)] = none := by
  simp only [alFind]
  rw [if_neg (fun hh => h hh.symm)]

theorem addBody_ok (p : Parser) (l₁ : List (String × SectCfg)) (c : SectCfg)
    (option value line : String)
    (hcfg : p.config = l₁ ++ [(p.currSect, c)])
    (hnot : p.currSect ∉ l₁.map Prod.fst) :
    addOptionToSectionBody p option value line =
      .ok { p with config := l₁ ++
        [(p.currSect, appendBody (mkBodyEntry option value line) c)] } := by
  have hfind : alFind p.currSect p.config = some c := by
    rw [hcfg, alFind_append_right _ _ _ (alFind_none_of_not_mem_keys _ _ hnot)]
    simp [alFind]
  simp only [addOptionToSectionBody, hfind]
  rw [hcfg, alModify_last _ _ _ _ hnot]

theorem step_sec (p : Parser) (cm line n : String) (sc sc' : ScanSt)
    (inv : Inv p cm sc)
    (hclass : classifyLine line = .sec n)
    (hscan : scanStep sc line = some sc') :
    ∃ p', parseLineStep (p, cm) line = .ok (p', cm) ∧ Inv p' cm sc' ∧
      p'.write = p.write ++ line := by
  have hsec := classify_sec_inv hclass
  have hne : n ≠ "" := sectionName_ne_empty hsec
  simp only [scanStep, hclass] at hscan
  by_cases hc : sc.secs.contains n
  · rw [if_pos hc] at hscan
    exact absurd hscan (by simp)
  rw [if_neg hc] at hscan
  have hnmem : n ∉ sc.secs := by
    intro hmem
    exact hc (by simpa using hmem)
  injection hscan with hsc'
  subst hsc'
  have hnotin : n ∉ p.sections := by rw [inv.secs_eq]; exact hnmem
  have hfindnone : alFind n p.config = none :=
    alFind_none_of_not_mem_keys n p.config (by rw [inv.cfg_keys]; exact hnmem)
  have hset : alSet n (⟨line, []⟩ : SectCfg) p.config =
      p.config ++ [(n, ⟨line, []⟩)] :=
    alSet_of_not_mem n _ p.config (by simp [alMem, hfindnone])
  have hstep : parseLineStep (p, cm) line =
      .ok ({ p with
             inOptionBlock := false
             currSect := n
             sections := p.sections ++ [n]
             config := alSet n ⟨line, []⟩ p.config }, cm) := by
    simp only [parseLineStep, isSectionLine, hsec, Option.isSome_some, if_true,
      parseSection, hnotin, if_false, Except.map]
  refine ⟨_, hstep, ?_, ?_⟩
  · refine ⟨?_, ?_, ?_, ?_, ?_, ?_, ?_, ?_, ?_, ?_, ?_, ?_⟩
    · simp [inv.secs_eq]
    · simp [hset, inv.cfg_keys]
    · simp [inv.decl_keys]
    · simp [hne]
    · intro h; exact absurd h hne
    · intro _; simp [List.getLast?_concat]
    ·
      simp only [List.nodup_append]
      exact ⟨inv.secs_nodup, List.nodup_singleton n, by
        intro a ha hb
        simp only [List.mem_singleton] at hb
        subst hb
        exact hnmem ha⟩
    · intro s ds hds
      by_cases hsn : s = n
      · subst hsn
        have hdnone : alFind s sc.declared = none :=
          alFind_none_of_not_mem_keys s sc.declared (by rw [inv.decl_keys]; exact hnmem)
        rw [alFind_append_right _ _ _ hdnone, alFind_singleton_self] at hds
        injection hds with hds
        subst hds
        refine ⟨⟨line, []⟩, ?_, by simp⟩
        rw [hset, alFind_append_right _ _ _ hfindnone, alFind_singleton_self]
      · have hds' : alFind s sc.declared = some ds := by
          cases hfd : alFind s sc.declared with
          | some x =>
            rw [alFind_append_left _ _ _ (by simp [hfd])] at hds
            rw [hfd] at hds
            exact hds
          | none =>
            rw [alFind_append_right _ _ _ hfd, alFind_singleton_ne n s _ hsn] at hds
            exact absurd hds (by simp)
        obtain ⟨cfg, hcfg, hnames⟩ := inv.body_names s ds hds'
        refine ⟨cfg, ?_, hnames⟩
        rw [hset, alFind_append_left _ _ _ (by simp [hcfg])]
        exact hcfg
    · intro s ds hds
      by_cases hsn : s = n
      · subst hsn
        have hdnone : alFind s sc.declared = none :=
          alFind_none_of_not_mem_keys s sc.declared (by rw [inv.decl_keys]; exact hnmem)
        rw [alFind_append_right _ _ _ hdnone, alFind_singleton_self] at hds
        injection hds with hds
        subst hds
        simp
      · have hds' : alFind s sc.declared = some ds := by
          cases hfd : alFind s sc.declared with
          | some x =>
            rw [alFind_append_left _ _ _ (by simp [hfd])] at hds
            rw [hfd] at hds
            exact hds
          | none =>
            rw [alFind_append_right _ _ _ hfd, alFind_singleton_ne n s _ hsn] at hds
            exact absurd hds (by simp)
        exact inv.decl_nodup s ds hds'
    · intro s opts hopts
      obtain ⟨ds, hds, hsub⟩ := inv.opts_sub s opts hopts
      exact ⟨ds, by rw [alFind_append_left _ _ _ (by simp [hds])]; exact hds, hsub⟩
    · simp
    · intro h; simp at h
  · rw [Parser.write, Parser.write]
    simp only [hset]
    rw [renderMap_append]
    simp only [List.map_cons, List.map_nil]
    rw [join_singleton]
    have : SectCfg.render ⟨line, []⟩ = line := by
      simp only [SectCfg.render, List.map_nil]
      rw [show String.join ([] : List String) = "" from rfl, String.append_empty]
    rw [this, ← String.append_assoc]


theorem alFind_swap_last {β : Type} (t s : String) (l₁ : List (String × β))
    (c c' : β) (h : ¬ t = s) :
    alFind t (l₁ ++ [(s, c')]) = alFind t (l₁ ++ [(s, c)]) := by
  cases hf : alFind t l₁ with
  | some x =>
    rw [alFind_append_left _ _ _ (by simp [hf]), alFind_append_left _ _ _ (by simp [hf])]
  | none =>
    rw [alFind_append_right _ _ _ hf, alFind_append_right _ _ _ hf,
      alFind_singleton_ne s t _ h, alFind_singleton_ne s t _ h]

theorem write_step (p p' : Parser) (l₁ : List (String × SectCfg)) (s : String)
    (c c' : SectCfg) (x : String)
    (hp : p.config = l₁ ++ [(s, c)]) (hp' : p'.config = l₁ ++ [(s, c')])
    (hh : p'.header = p.header) (hr : c'.render = c.render ++ x) :
    p'.write = p.write ++ x := by
  rw [write_config_split p l₁ s c hp, write_config_split p' l₁ s c' hp', hh, hr,
    ← String.append_assoc]

theorem cur_some_of_inv {p : Parser} {cm : String} {sc : ScanSt} {s : String}
    (inv : Inv p cm sc) (h : sc.cur = some s) :
    p.currSect = s ∧ p.currSect ≠ "" := by
  have hce := inv.cur_eq
  rw [h] at hce
  by_cases hcs : p.currSect = ""
  · rw [if_pos hcs] at hce
    exact absurd hce (by simp)
  · rw [if_neg hcs] at hce
    injection hce with hh
    exact ⟨hh.symm, hcs⟩

theorem decl_some_of_inv {p : Parser} {cm : String} {sc : ScanSt}
    (inv : Inv p cm sc) (h : p.currSect ≠ "") :
    ∃ ds, alFind p.currSect sc.declared = some ds := by
  have hmem : p.currSect ∈ sc.secs :=
    List.mem_of_getLast?_eq_some (inv.cur_last h)
  have hsome := alFind_isSome_of_mem_keys (l := sc.declared)
    (by rw [inv.decl_keys]; exact hmem)
  cases hf : alFind p.currSect sc.declared with
  | none => rw [hf] at hsome; simp at hsome
  | some ds => exact ⟨ds, rfl⟩

theorem step_opt (p : Parser) (cm line n v : String) (sc sc' : ScanSt)
    (inv : Inv p cm sc)
    (hclass : classifyLine line = .opt n v)
    (hscan : scanStep sc line = some sc') :
    ∃ p', parseLineStep (p, cm) line = .ok (p', cm) ∧ Inv p' cm sc' ∧
      p'.write = p.write ++ line := by
  obtain ⟨hsec, hopt⟩ := classify_opt_inv line n v hclass
  have hn : n ≠ "" := optionNV_name_ne hopt
  simp only [scanStep, hclass] at hscan
  cases hcur : sc.cur with
  | none => rw [hcur] at hscan; simp at hscan
  | some s =>
  simp only [hcur] at hscan
  by_cases hdh : declHas sc.declared s n = true
  · rw [if_pos hdh] at hscan
    exact absurd hscan (by simp)
  rw [if_neg hdh] at hscan
  injection hscan with hsc'
  subst hsc'
  obtain ⟨hcs, hcne⟩ := cur_some_of_inv inv hcur
  subst hcs
  obtain ⟨ds, hds⟩ := decl_some_of_inv inv hcne
  have hnotds : n ∉ ds.map Prod.fst := by
    intro hmem
    apply hdh
    simp only [declHas, hds]
    obtain ⟨⟨nk, nb⟩, hpair, hfst⟩ := List.mem_map.mp hmem
    simp only at hfst
    subst hfst
    simp only [List.any_eq_true]
    exact ⟨(nk, nb), hpair, by simp⟩
  obtain ⟨l₁, c, hcfg, hnotc, hfindc⟩ := config_split p.config p.currSect
    (by rw [inv.cfg_keys]; exact inv.cur_last hcne)
    (by rw [inv.cfg_keys]; exact inv.secs_nodup)
  obtain ⟨cfg0, hcfg0, hnames0⟩ := inv.body_names p.currSect ds hds
  have hnames : (c.body.map BodyOpt.option).filter (fun x => x ≠ "") =
      ds.map Prod.fst := by
    have hc0 : cfg0 = c := by
      rw [hfindc] at hcfg0
      injection hcfg0 with hh
      exact hh.symm
    rw [← hc0]
    exact hnames0
  have hnodk : (ds.map Prod.fst).Nodup := inv.decl_nodup p.currSect ds hds
  have hsecline : isSectionLine line = false := by simp [isSectionLine, hsec]
  have hInvCommon : ∀ (newOpts : List (String × List (String × Value))),
      (alFind p.currSect newOpts = some (alSet n (.str v)
        ((alFind p.currSect p.options).getD []))) →
      (∀ t, ¬ t = p.currSect → alFind t newOpts = alFind t p.options) →
      Inv { p with
            inOptionBlock := false
            options := newOpts
            config := l₁ ++ [(p.currSect, appendBody (mkBodyEntry n v line) c)] }
        cm ⟨sc.secs, alModify p.currSect (fun ds => ds ++ [(n, false)]) sc.declared,
            some p.currSect, false⟩ := by
    intro newOpts hnew hnewne
    refine ⟨?_, ?_, ?_, ?_, ?_, ?_, ?_, ?_, ?_, ?_, ?_, ?_⟩
    · simp [inv.secs_eq]
    · dsimp only
      rw [show (l₁ ++ [(p.currSect, appendBody (mkBodyEntry n v line) c)]).map
          Prod.fst = (l₁ ++ [(p.currSect, c)]).map Prod.fst by simp]
      rw [← hcfg, inv.cfg_keys]
    · dsimp only
      rw [alModify_keys, inv.decl_keys]
    · dsimp only
      rw [if_neg hcne]
    · intro h; exact absurd h hcne
    · intro _; exact inv.cur_last hcne
    · exact inv.secs_nodup
    · intro t dst hdst
      dsimp only at hdst ⊢
      by_cases hts : t = p.currSect
      · subst hts
        rw [alFind_alModify_self _ _ _ _ hds] at hdst
        injection hdst with hdst
        subst hdst
        refine ⟨appendBody (mkBodyEntry n v line) c, ?_, ?_⟩
        · rw [alFind_append_right _ _ _ (alFind_none_of_not_mem_keys _ _ hnotc),
            alFind_singleton_self]
        · simp only [appendBody, mkBodyEntry, List.map_append, List.map_cons,
            List.map_nil, List.filter_append]
          rw [hnames]
          simp [hn]
      · rw [alFind_alModify_ne _ _ _ _ hts] at hdst
        obtain ⟨cfg1, hcfg1, hnames1⟩ := inv.body_names t dst hdst
        refine ⟨cfg1, ?_, hnames1⟩
        rw [alFind_swap_last t p.currSect l₁ c _ hts, ← hcfg]
        exact hcfg1
    · intro t dst hdst
      dsimp only at hdst
      by_cases hts : t = p.currSect
      · subst hts
        rw [alFind_alModify_self _ _ _ _ hds] at hdst
        injection hdst with hdst
        subst hdst
        simp only [List.map_append, List.map_cons, List.map_nil, List.nodup_append]
        exact ⟨hnodk, List.nodup_singleton n, by
          intro a ha hb
          simp only [List.mem_singleton] at hb
          subst hb
          exact hnotds ha⟩
      · rw [alFind_alModify_ne _ _ _ _ hts] at hdst
        exact inv.decl_nodup t dst hdst
    · intro t opts hopts
      dsimp only at hopts ⊢
      by_cases hts : t = p.currSect
      · subst hts
        rw [hnew] at hopts
        injection hopts with hopts
        subst hopts
        refine ⟨ds ++ [(n, false)], alFind_alModify_self _ _ _ _ hds, ?_⟩
        intro nv hnv
        rcases alSet_mem_or nv hnv with h' | h'
        · subst h'
          simp [valueKind]
        · cases hof : alFind p.currSect p.options with
          | none =>
            rw [hof] at h'
            simp at h'
          | some opts0 =>
            rw [hof] at h'
            simp only [Option.getD_some] at h'
            obtain ⟨ds2, hds2, hsub⟩ := inv.opts_sub p.currSect opts0 hof
            rw [hds] at hds2
            injection hds2 with hds2
            subst hds2
            exact List.mem_append.mpr (Or.inl (hsub nv h'))
      · rw [hnewne t hts] at hopts
        obtain ⟨dst, hdst, hsub⟩ := inv.opts_sub t opts hopts
        refine ⟨dst, ?_, hsub⟩
        rw [alFind_alModify_ne _ _ _ _ hts]
        exact hdst
    · simp
    · intro h; simp at h
  cases hof : alFind p.currSect p.options with
  | none =>
    have hstep : parseLineStep (p, cm) line =
        .ok ({ p with
               inOptionBlock := false
               options := alModify p.currSect (alSet n (.str v))
                 (alSet p.currSect [] p.options)
               config := l₁ ++ [(p.currSect,
                 appendBody (mkBodyEntry n v line) c)] }, cm) := by
      simp only [parseLineStep, hsecline, Bool.false_eq_true, if_false,
        isOptionLine, hopt, Option.isSome_some, if_true]
      simp only [parseOption, hopt, hof, Option.isNone_none, if_true,
        alFind_alSet_self, Option.getD_some]
      simp only [alMem, alFind, Option.isSome_none, Bool.false_eq_true, if_false]
      have haddb := addBody_ok
        { p with
          inOptionBlock := false
          options := alModify p.currSect (alSet n (.str v))
            (alSet p.currSect [] p.options) }
        l₁ c n v line hcfg hnotc
      rw [haddb]
      rfl
    refine ⟨_, hstep, ?_, ?_⟩
    · have := hInvCommon (alModify p.currSect (alSet n (.str v))
        (alSet p.currSect [] p.options))
        (by rw [alFind_alModify_self _ _ _ _ (alFind_alSet_self _ _ _), hof]; rfl)
        (fun t hts => by
          rw [alFind_alModify_ne _ _ _ _ hts, alFind_alSet_ne _ _ _ _ hts])
      exact this
    · exact write_step p _ l₁ p.currSect c _ line hcfg rfl rfl
        (by rw [render_appendBody, entryRender_mk])
  | some opts0 =>
    have hmemopts : alMem n opts0 = false := by
      cases hmem : alMem n opts0 with
      | false => rfl
      | true =>
        exfalso
        simp only [alMem] at hmem
        cases hfn : alFind n opts0 with
        | none => rw [hfn] at hmem; simp at hmem
        | some w =>
          obtain ⟨ds2, hds2, hsub⟩ := inv.opts_sub p.currSect opts0 hof
          rw [hds] at hds2
          injection hds2 with hds2
          subst hds2
          have := hsub (n, w) (alFind_mem hfn)
          exact hnotds (List.mem_map.mpr ⟨(n, valueKind w), this, rfl⟩)
    have hstep : parseLineStep (p, cm) line =
        .ok ({ p with
               inOptionBlock := false
               options := alModify p.currSect (alSet n (.str v)) p.options
               config := l₁ ++ [(p.currSect,
                 appendBody (mkBodyEntry n v line) c)] }, cm) := by
      simp only [parseLineStep, hsecline, Bool.false_eq_true, if_false,
        isOptionLine, hopt, Option.isSome_some, if_true]
      simp only [parseOption, hopt, hof, Option.isNone_some, Bool.false_eq_true,
        if_false, Option.getD_some, hmemopts]
      have haddb := addBody_ok
        { p with
          inOptionBlock := false
          options := alModify p.currSect (alSet n (.str v)) p.options }
        l₁ c n v line hcfg hnotc
      rw [haddb]
      rfl
    refine ⟨_, hstep, ?_, ?_⟩
    · have := hInvCommon (alModify p.currSect (alSet n (.str v)) p.options)
        (by rw [alFind_alModify_self _ _ _ _ hof, hof]; rfl)
        (fun t hts => by rw [alFind_alModify_ne _ _ _ _ hts])
      exact this
    · exact write_step p _ l₁ p.currSect c _ line hcfg rfl rfl
        (by rw [render_appendBody, entryRender_mk])


theorem step_ml (p : Parser) (cm line n : String) (sc sc' : ScanSt)
    (inv : Inv p cm sc)
    (hclass : classifyLine line = .mlstart n)
    (hscan : scanStep sc line = some sc') :
    ∃ p', parseLineStep (p, cm) line = .ok (p', n) ∧ Inv p' n sc' ∧
      p'.write = p.write ++ line := by
  obtain ⟨hsec, hopt, hml⟩ := classify_ml_inv hclass
  have hn : n ≠ "" := mlName_name_ne hml
  simp only [scanStep, hclass] at hscan
  cases hcur : sc.cur with
  | none => rw [hcur] at hscan; simp at hscan
  | some s =>
  simp only [hcur] at hscan
  by_cases hdh : declHas sc.declared s n = true
  · rw [if_pos hdh] at hscan
    exact absurd hscan (by simp)
  rw [if_neg hdh] at hscan
  injection hscan with hsc'
  subst hsc'
  obtain ⟨hcs, hcne⟩ := cur_some_of_inv inv hcur
  subst hcs
  obtain ⟨ds, hds⟩ := decl_some_of_inv inv hcne
  have hnotds : n ∉ ds.map Prod.fst := by
    intro hmem
    apply hdh
    simp only [declHas, hds]
    obtain ⟨⟨nk, nb⟩, hpair, hfst⟩ := List.mem_map.mp hmem
    simp only at hfst
    subst hfst
    simp only [List.any_eq_true]
    exact ⟨(nk, nb), hpair, by simp⟩
  obtain ⟨l₁, c, hcfg, hnotc, hfindc⟩ := config_split p.config p.currSect
    (by rw [inv.cfg_keys]; exact inv.cur_last hcne)
    (by rw [inv.cfg_keys]; exact inv.secs_nodup)
  obtain ⟨cfg0, hcfg0, hnames0⟩ := inv.body_names p.currSect ds hds
  have hnames : (c.body.map BodyOpt.option).filter (fun x => x ≠ "") =
      ds.map Prod.fst := by
    have hc0 : cfg0 = c := by
      rw [hfindc] at hcfg0
      injection hcfg0 with hh
      exact hh.symm
    rw [← hc0]
    exact hnames0
  have hnodk : (ds.map Prod.fst).Nodup := inv.decl_nodup p.currSect ds hds
  have hsecline : isSectionLine line = false := by simp [isSectionLine, hsec]
  have hoptline : isOptionLine line = false := by simp [isOptionLine, hopt]
  have hstep : parseLineStep (p, cm) line =
      .ok ({ p with
             inOptionBlock := true
             config := l₁ ++ [(p.currSect,
               appendBody (mkBodyEntry n "" line) c)] }, n) := by
    simp only [parseLineStep, hsecline, hoptline, Bool.false_eq_true, if_false,
      isMlLine, hml, Option.isSome_some, if_true, Option.getD_some]
    have haddb := addBody_ok { p with inOptionBlock := true } l₁ c n "" line
      hcfg hnotc
    rw [haddb]
    rfl
  refine ⟨_, hstep, ?_, ?_⟩
  · refine ⟨?_, ?_, ?_, ?_, ?_, ?_, ?_, ?_, ?_, ?_, ?_, ?_⟩
    · simp [inv.secs_eq]
    · dsimp only
      rw [show (l₁ ++ [(p.currSect, appendBody (mkBodyEntry n "" line) c)]).map
          Prod.fst = (l₁ ++ [(p.currSect, c)]).map Prod.fst by simp]
      rw [← hcfg, inv.cfg_keys]
    · dsimp only
      rw [alModify_keys, inv.decl_keys]
    · dsimp only
      rw [if_neg hcne]
    · intro h; exact absurd h hcne
    · intro _; exact inv.cur_last hcne
    · exact inv.secs_nodup
    · intro t dst hdst
      dsimp only at hdst ⊢
      by_cases hts : t = p.currSect
      · subst hts
        rw [alFind_alModify_self _ _ _ _ hds] at hdst
        injection hdst with hdst
        subst hdst
        refine ⟨appendBody (mkBodyEntry n "" line) c, ?_, ?_⟩
        · rw [alFind_append_right _ _ _ (alFind_none_of_not_mem_keys _ _ hnotc),
            alFind_singleton_self]
        · simp only [appendBody, mkBodyEntry, List.map_append, List.map_cons,
            List.map_nil, List.filter_append]
          rw [hnames]
          simp [hn]
      · rw [alFind_alModify_ne _ _ _ _ hts] at hdst
        obtain ⟨cfg1, hcfg1, hnames1⟩ := inv.body_names t dst hdst
        refine ⟨cfg1, ?_, hnames1⟩
        rw [alFind_swap_last t p.currSect l₁ c _ hts, ← hcfg]
        exact hcfg1
    · intro t dst hdst
      dsimp only at hdst
      by_cases hts : t = p.currSect
      · subst hts
        rw [alFind_alModify_self _ _ _ _ hds] at hdst
        injection hdst with hdst
        subst hdst
        simp only [List.map_append, List.map_cons, List.map_nil, List.nodup_append]
        exact ⟨hnodk, List.nodup_singleton n, by
          intro a ha hb
          simp only [List.mem_singleton] at hb
          subst hb
          exact hnotds ha⟩
      · rw [alFind_alModify_ne _ _ _ _ hts] at hdst
        exact inv.decl_nodup t dst hdst
    · intro t opts hopts
      dsimp only at hopts ⊢
      by_cases hts : t = p.currSect
      · subst hts
        obtain ⟨ds2, hds2, hsub⟩ := inv.opts_sub p.currSect opts hopts
        rw [hds] at hds2
        injection hds2 with hds2
        subst hds2
        refine ⟨ds ++ [(n, true)], alFind_alModify_self _ _ _ _ hds, ?_⟩
        intro nv hnv
        exact List.mem_append.mpr (Or.inl (hsub nv hnv))
      · obtain ⟨dst, hdst, hsub⟩ := inv.opts_sub t opts hopts
        refine ⟨dst, ?_, hsub⟩
        rw [alFind_alModify_ne _ _ _ _ hts]
        exact hdst
    · simp
    · intro _
      refine ⟨hn, hcne, ?_⟩
      dsimp only
      refine ⟨appendBody (mkBodyEntry n "" line) c, c.body, mkBodyEntry n "" line,
        ?_, ?_, ?_, ?_, ?_, ?_⟩
      · rw [alFind_append_right _ _ _ (alFind_none_of_not_mem_keys _ _ hnotc),
          alFind_singleton_self]
      · rfl
      · simp [mkBodyEntry]
      · intro x hx hxopt
        apply hnotds
        rw [← hnames]
        refine List.mem_filter.mpr ⟨List.mem_map.mpr ⟨x, hx, hxopt⟩, by simp [hn]⟩
      · intro _
        simp [mkBodyEntry]
      · refine ⟨ds ++ [(n, true)], alFind_alModify_self _ _ _ _ hds, ?_⟩
        simp
  · exact write_step p _ l₁ p.currSect c _ line hcfg rfl rfl
      (by rw [render_appendBody, entryRender_mk])


theorem nodup_keys_val_eq {β : Type} {k : String} {a b : β}
    {l : List (String × β)} (hnd : (l.map Prod.fst).Nodup)
    (ha : (k, a) ∈ l) (hb : (k, b) ∈ l) : a = b := by
  induction l with
  | nil => simp at ha
  | cons hd tl ih =>
    obtain ⟨hk, hv⟩ := hd
    simp only [List.map_cons, List.nodup_cons] at hnd
    rcases List.mem_cons.mp ha with h1 | h1
    · rcases List.mem_cons.mp hb with h2 | h2
      · injection h1 with hk1 hv1
        injection h2 with hk2 hv2
        rw [hv1, hv2]
      · exfalso
        injection h1 with hk1 hv1
        apply hnd.1
        rw [← hk1]
        exact List.mem_map.mpr ⟨(k, b), h2, rfl⟩
    · rcases List.mem_cons.mp hb with h2 | h2
      · exfalso
        injection h2 with hk2 hv2
        apply hnd.1
        rw [← hk2]
        exact List.mem_map.mpr ⟨(k, a), h1, rfl⟩
      · exact ih hnd.2 h1 h2

theorem contUpdate_option (cm line cl : String) (x : BodyOpt) :
    (contUpdate cm line cl x).option = x.option := by
  simp only [contUpdate]
  split <;> rfl

theorem contUpdate_ml (cm line cl : String) (e : BodyOpt) (he : e.option = cm) :
    (contUpdate cm line cl e).is_multiline = true := by
  simp [contUpdate, he]

theorem map_contUpdate_id (cm line cl : String) (bl : List BodyOpt)
    (hall : ∀ x ∈ bl, x.option ≠ cm) :
    bl.map (contUpdate cm line cl) = bl := by
  induction bl with
  | nil => rfl
  | cons hd tl ih =>
    simp only [List.map_cons]
    rw [ih (fun x hx => hall x (List.mem_cons_of_mem hd hx))]
    rw [show contUpdate cm line cl hd = hd from by
      simp only [contUpdate, if_neg (hall hd (List.mem_cons_self hd tl))]]

theorem map_option_contUpdate (cm line cl : String) (bl : List BodyOpt) :
    (bl.map (contUpdate cm line cl)).map BodyOpt.option =
      bl.map BodyOpt.option := by
  induction bl with
  | nil => rfl
  | cons hd tl ih =>
    simp only [List.map_cons, ih, contUpdate_option]

theorem entryRender_contUpdate (cm line cl : String) (e : BodyOpt)
    (he : e.option = cm) (hraw0 : e.is_multiline = false → e.rawValue = []) :
    entryRender (contUpdate cm line cl e) = entryRender e ++ line := by
  have hcu : contUpdate cm line cl e = { e with
      is_multiline := true
      rawValue := e.rawValue ++ [line]
      value := if !(isCommentLine line) && cl ≠ "" then e.value ++ [cl]
               else e.value } := by
    simp only [contUpdate, if_pos he]
  rw [hcu]
  show e.raw ++ (if true = true then String.join (e.rawValue ++ [line]) else "") =
      (e.raw ++ (if e.is_multiline = true then String.join e.rawValue else "")) ++
        line
  rw [if_pos rfl, join_append, join_singleton]
  cases hml : e.is_multiline with
  | true =>
    rw [if_pos rfl, String.append_assoc]
  | false =>
    rw [if_neg (by simp), hraw0 hml]
    rw [show String.join ([] : List String) = "" from rfl]
    rw [String.append_empty]
    rw [show ("" : String) ++ line = line from by
      cases line with
      | mk d => rfl]

theorem render_cont (c : SectCfg) (cm line cl : String) (b : List BodyOpt)
    (e : BodyOpt) (hbody : c.body = b ++ [e]) (he : e.option = cm)
    (hbne : ∀ x ∈ b, x.option ≠ cm)
    (hraw0 : e.is_multiline = false → e.rawValue = []) :
    SectCfg.render { c with body := c.body.map (contUpdate cm line cl) } =
      c.render ++ line := by
  simp only [SectCfg.render, hbody, List.map_append, List.map_cons, List.map_nil]
  rw [map_contUpdate_id cm line cl b hbne, join_append, join_append,
    join_singleton, join_singleton, entryRender_contUpdate cm line cl e he hraw0]
  simp [String.append_assoc]


theorem opts_sub_preserve (p : Parser) (cm : String) (sc : ScanSt)
    (inv : Inv p cm sc)
    (ds : List (String × Bool)) (hds : alFind p.currSect sc.declared = some ds)
    (o₂ : List (String × List (String × Value)))
    (hcur : ∀ opts, alFind p.currSect o₂ = some opts →
      ∀ nv ∈ opts, (nv.1, valueKind nv.2) ∈ ds)
    (hother : ∀ t, t ≠ p.currSect → alFind t o₂ = alFind t p.options) :
    ∀ t opts, alFind t o₂ = some opts →
      ∃ ds', alFind t sc.declared = some ds' ∧
        ∀ nv ∈ opts, (nv.1, valueKind nv.2) ∈ ds' := by
  intro t opts hopts
  by_cases hts : t = p.currSect
  · subst hts
    exact ⟨ds, hds, hcur opts hopts⟩
  · rw [hother t hts] at hopts
    exact inv.opts_sub t opts hopts

theorem cont_inv (p : Parser) (cm line : String) (sc : ScanSt)
    (o₂ : List (String × List (String × Value)))
    (inv : Inv p cm sc) (hblk : sc.inBlock = true)
    (hosub : ∀ t opts, alFind t o₂ = some opts →
      ∃ ds, alFind t sc.declared = some ds ∧
        ∀ nv ∈ opts, (nv.1, valueKind nv.2) ∈ ds) :
    Inv { p with
          options := o₂
          config := alModify p.currSect
            (fun c => { c with
              body := c.body.map (contUpdate cm line (pyStrip line)) }) p.config }
      cm sc ∧
    ({ p with
       options := o₂
       config := alModify p.currSect
         (fun c => { c with
           body := c.body.map (contUpdate cm line (pyStrip line)) }) p.config } :
      Parser).write = p.write ++ line := by
  obtain ⟨hcm, hcne, cfg, b, e, hfcfg, hbody, heopt, hbne, hraw0, ds, hds, hdsmem⟩ :=
    inv.block_open hblk
  obtain ⟨l₁, c, hcfg, hnotc, hfindc⟩ := config_split p.config p.currSect
    (by rw [inv.cfg_keys]; exact inv.cur_last hcne)
    (by rw [inv.cfg_keys]; exact inv.secs_nodup)
  have hceq : c = cfg := Option.some.inj (hfindc.symm.trans hfcfg)
  have hbody' : c.body = b ++ [e] := by rw [hceq]; exact hbody
  have hcfg' : alModify p.currSect
      (fun c0 => { c0 with
        body := c0.body.map (contUpdate cm line (pyStrip line)) }) p.config =
      l₁ ++ [(p.currSect,
        { c with body := c.body.map (contUpdate cm line (pyStrip line)) })] := by
    rw [hcfg, alModify_last _ _ _ _ hnotc]
  have hbodymap : c.body.map (contUpdate cm line (pyStrip line)) =
      b ++ [contUpdate cm line (pyStrip line) e] := by
    rw [hbody', List.map_append, map_contUpdate_id cm line (pyStrip line) b hbne,
      List.map_cons, List.map_nil]
  constructor
  · refine ⟨?_, ?_, ?_, ?_, ?_, ?_, ?_, ?_, ?_, ?_, ?_, ?_⟩
    · exact inv.secs_eq
    · dsimp only
      rw [alModify_keys]
      exact inv.cfg_keys
    · exact inv.decl_keys
    · exact inv.cur_eq
    · intro h
      exact absurd h hcne
    · exact inv.cur_last
    · exact inv.secs_nodup
    · intro t dst hdst
      dsimp only
      by_cases hts : t = p.currSect
      · subst hts
        refine ⟨{ c with
            body := c.body.map (contUpdate cm line (pyStrip line)) }, ?_, ?_⟩
        · rw [hcfg', alFind_append_right _ _ _
            (alFind_none_of_not_mem_keys _ _ hnotc), alFind_singleton_self]
        · dsimp only
          rw [map_option_contUpdate]
          obtain ⟨cfg0, hcfg0, hnames0⟩ := inv.body_names p.currSect dst hdst
          have hc0 : cfg0 = c := by
            rw [hfindc] at hcfg0
            injection hcfg0 with hh
            exact hh.symm
          rw [← hc0]
          exact hnames0
      · rw [alFind_alModify_ne _ _ _ _ hts]
        exact inv.body_names t dst hdst
    · exact inv.decl_nodup
    · exact hosub
    · exact inv.block_eq
    · intro _
      refine ⟨hcm, hcne,
        { c with body := c.body.map (contUpdate cm line (pyStrip line)) },
        b, contUpdate cm line (pyStrip line) e, ?_, ?_, ?_, ?_, ?_, ?_⟩
      · dsimp only
        rw [hcfg', alFind_append_right _ _ _
          (alFind_none_of_not_mem_keys _ _ hnotc), alFind_singleton_self]
      · dsimp only
        exact hbodymap
      · rw [contUpdate_option]
        exact heopt
      · exact hbne
      · intro hfalse
        rw [contUpdate_ml cm line (pyStrip line) e heopt] at hfalse
        exact absurd hfalse (by simp)
      · exact ⟨ds, hds, hdsmem⟩
  · refine write_step p _ l₁ p.currSect c _ line hcfg hcfg' rfl ?_
    exact render_cont c cm line (pyStrip line) b e hbody' heopt hbne hraw0


theorem alFind_nil {β : Type} (k : String) :
    alFind k ([] : List (String × β)) = none := rfl

theorem contStep (p : Parser) (cm line : String) (sc : ScanSt)
    (inv : Inv p cm sc) (hblk : sc.inBlock = true) :
    ∃ p', parseMultilineOption p cm line = .ok p' ∧ Inv p' cm sc ∧
      p'.write = p.write ++ line := by
  obtain ⟨hcm, hcne, cfg, b, e, hfcfg, hbody, heopt, hbne, hraw0, ds, hds, hdsmem⟩ :=
    inv.block_open hblk
  have hnodk := inv.decl_nodup p.currSect ds hds
  cases hF : alFind p.currSect p.options with
  | none =>
    cases hcond : (pyStrip line ≠ "" && !(isCommentLine line)) with
    | true =>
      have h1 : alFind p.currSect (alSet p.currSect [] p.options) =
          some [] := alFind_alSet_self _ _ _
      have h2 : alFind p.currSect (alModify p.currSect (alSet cm (Value.list []))
          (alSet p.currSect [] p.options)) = some (alSet cm (Value.list []) []) :=
        alFind_alModify_self _ _ _ _ h1
      have h3 : alFind cm (alSet cm (Value.list []) ([] : List (String × Value))) =
          some (Value.list []) := alFind_alSet_self _ _ _
      have hrun : parseMultilineOption p cm line = .ok { p with
          options := alModify p.currSect (alSet cm (Value.list [pyStrip line]))
            (alModify p.currSect (alSet cm (Value.list []))
              (alSet p.currSect [] p.options))
          config := alModify p.currSect
            (fun c => { c with
              body := c.body.map (contUpdate cm line (pyStrip line)) })
            p.config } := by
        simp only [if_true, if_false, parseMultilineOption, hF, Option.isNone_none,
          Option.getD_some, alFind_nil, h1, h2, h3, hcond, hfcfg]
        rfl
      have hcur : ∀ opts, alFind p.currSect
          (alModify p.currSect (alSet cm (Value.list [pyStrip line]))
            (alModify p.currSect (alSet cm (Value.list []))
              (alSet p.currSect [] p.options))) = some opts →
          ∀ nv ∈ opts, (nv.1, valueKind nv.2) ∈ ds := by
        intro opts hopts nv hnv
        rw [alFind_alModify_self _ _ _ _ (alFind_alModify_self _ _ _ _
          (alFind_alSet_self _ _ _))] at hopts
        injection hopts with hopts
        subst hopts
        rcases alSet_mem_or nv hnv with h1 | h1
        · subst h1
          exact hdsmem
        · rcases alSet_mem_or nv h1 with h2 | h2
          · subst h2
            exact hdsmem
          · simp at h2
      have hosub := opts_sub_preserve p cm sc inv ds hds _ hcur
        (by intro t ht; rw [alFind_alModify_ne _ _ _ _ ht,
          alFind_alModify_ne _ _ _ _ ht, alFind_alSet_ne _ _ _ _ ht])
      have hci := cont_inv p cm line sc _ inv hblk hosub
      exact ⟨_, hrun, hci.1, hci.2⟩
    | false =>
      have h1 : alFind p.currSect (alSet p.currSect [] p.options) =
          some [] := alFind_alSet_self _ _ _
      have hrun : parseMultilineOption p cm line = .ok { p with
          options := alModify p.currSect (alSet cm (Value.list []))
            (alSet p.currSect [] p.options)
          config := alModify p.currSect
            (fun c => { c with
              body := c.body.map (contUpdate cm line (pyStrip line)) })
            p.config } := by
        simp only [if_true, if_false, parseMultilineOption, hF, Option.isNone_none,
          Option.getD_some, alFind_nil, h1, hcond, Bool.false_eq_true, hfcfg]
      have hcur : ∀ opts, alFind p.currSect
          (alModify p.currSect (alSet cm (Value.list []))
            (alSet p.currSect [] p.options)) = some opts →
          ∀ nv ∈ opts, (nv.1, valueKind nv.2) ∈ ds := by
        intro opts hopts nv hnv
        rw [alFind_alModify_self _ _ _ _ (alFind_alSet_self _ _ _)] at hopts
        injection hopts with hopts
        subst hopts
        rcases alSet_mem_or nv hnv with h1 | h1
        · subst h1
          exact hdsmem
        · simp at h1
      have hosub := opts_sub_preserve p cm sc inv ds hds _ hcur
        (by intro t ht; rw [alFind_alModify_ne _ _ _ _ ht,
          alFind_alSet_ne _ _ _ _ ht])
      have hci := cont_inv p cm line sc _ inv hblk hosub
      exact ⟨_, hrun, hci.1, hci.2⟩
  | some opts₀ =>
    have hmem₀ : ∀ nv ∈ opts₀, (nv.1, valueKind nv.2) ∈ ds := by
      obtain ⟨ds2, hds2, hsub₀⟩ := inv.opts_sub p.currSect opts₀ hF
      rw [hds] at hds2
      injection hds2 with hds2
      subst hds2
      exact hsub₀
    cases hG : alFind cm opts₀ with
    | none =>
      cases hcond : (pyStrip line ≠ "" && !(isCommentLine line)) with
      | true =>
        have h2 : alFind p.currSect (alModify p.currSect
            (alSet cm (Value.list [])) p.options) =
            some (alSet cm (Value.list []) opts₀) := alFind_alModify_self _ _ _ _ hF
        have h3 : alFind cm (alSet cm (Value.list []) opts₀) =
            some (Value.list []) := alFind_alSet_self _ _ _
        have hrun : parseMultilineOption p cm line = .ok { p with
            options := alModify p.currSect (alSet cm (Value.list [pyStrip line]))
              (alModify p.currSect (alSet cm (Value.list [])) p.options)
            config := alModify p.currSect
              (fun c => { c with
                body := c.body.map (contUpdate cm line (pyStrip line)) })
              p.config } := by
          simp only [if_true, if_false, parseMultilineOption, hF, Option.isNone_some,
            Option.getD_some, Bool.false_eq_true, hG, Option.isNone_none, h2, h3,
            hcond, hfcfg]
          rfl
        have hcur : ∀ opts, alFind p.currSect
            (alModify p.currSect (alSet cm (Value.list [pyStrip line]))
              (alModify p.currSect (alSet cm (Value.list [])) p.options)) =
            some opts → ∀ nv ∈ opts, (nv.1, valueKind nv.2) ∈ ds := by
          intro opts hopts nv hnv
          rw [alFind_alModify_self _ _ _ _ (alFind_alModify_self _ _ _ _ hF)]
            at hopts
          injection hopts with hopts
          subst hopts
          rcases alSet_mem_or nv hnv with h1 | h1
          · subst h1
            exact hdsmem
          · rcases alSet_mem_or nv h1 with h2 | h2
            · subst h2
              exact hdsmem
            · exact hmem₀ nv h2
        have hosub := opts_sub_preserve p cm sc inv ds hds _ hcur
          (by intro t ht; rw [alFind_alModify_ne _ _ _ _ ht,
            alFind_alModify_ne _ _ _ _ ht])
        have hci := cont_inv p cm line sc _ inv hblk hosub
        exact ⟨_, hrun, hci.1, hci.2⟩
      | false =>
        have hrun : parseMultilineOption p cm line = .ok { p with
            options := alModify p.currSect (alSet cm (Value.list [])) p.options
            config := alModify p.currSect
              (fun c => { c with
                body := c.body.map (contUpdate cm line (pyStrip line)) })
              p.config } := by
          simp only [if_true, if_false, parseMultilineOption, hF, Option.isNone_some,
            Option.getD_some, Bool.false_eq_true, hG, Option.isNone_none,
            hcond, hfcfg]
        have hcur : ∀ opts, alFind p.currSect
            (alModify p.currSect (alSet cm (Value.list [])) p.options) =
            some opts → ∀ nv ∈ opts, (nv.1, valueKind nv.2) ∈ ds := by
          intro opts hopts nv hnv
          rw [alFind_alModify_self _ _ _ _ hF] at hopts
          injection hopts with hopts
          subst hopts
          rcases alSet_mem_or nv hnv with h1 | h1
          · subst h1
            exact hdsmem
          · exact hmem₀ nv h1
        have hosub := opts_sub_preserve p cm sc inv ds hds _ hcur
          (by intro t ht; rw [alFind_alModify_ne _ _ _ _ ht])
        have hci := cont_inv p cm line sc _ inv hblk hosub
        exact ⟨_, hrun, hci.1, hci.2⟩
    | some v =>
      have hvk : valueKind v = true :=
        nodup_keys_val_eq hnodk (hmem₀ (cm, v) (alFind_mem hG)) hdsmem
      cases hcond : (pyStrip line ≠ "" && !(isCommentLine line)) with
      | true =>
        cases v with
        | str s => simp [valueKind] at hvk
        | list vs =>
        have hrun : parseMultilineOption p cm line = .ok { p with
            options := alModify p.currSect
              (alSet cm (Value.list (vs ++ [pyStrip line]))) p.options
            config := alModify p.currSect
              (fun c => { c with
                body := c.body.map (contUpdate cm line (pyStrip line)) })
              p.config } := by
          simp only [if_true, if_false, parseMultilineOption, hF, Option.isNone_some, Option.getD_some,
            Bool.false_eq_true, hG, hcond, hfcfg]
        have hcur : ∀ opts, alFind p.currSect
            (alModify p.currSect
              (alSet cm (Value.list (vs ++ [pyStrip line]))) p.options) =
            some opts → ∀ nv ∈ opts, (nv.1, valueKind nv.2) ∈ ds := by
          intro opts hopts nv hnv
          rw [alFind_alModify_self _ _ _ _ hF] at hopts
          injection hopts with hopts
          subst hopts
          rcases alSet_mem_or nv hnv with h1 | h1
          · subst h1
            exact hdsmem
          · exact hmem₀ nv h1
        have hosub := opts_sub_preserve p cm sc inv ds hds _ hcur
          (by intro t ht; rw [alFind_alModify_ne _ _ _ _ ht])
        have hci := cont_inv p cm line sc _ inv hblk hosub
        exact ⟨_, hrun, hci.1, hci.2⟩
      | false =>
        have hrun : parseMultilineOption p cm line = .ok { p with
            options := p.options
            config := alModify p.currSect
              (fun c => { c with
                body := c.body.map (contUpdate cm line (pyStrip line)) })
              p.config } := by
          simp only [if_true, if_false, parseMultilineOption, hF, Option.isNone_some, Option.getD_some,
            Bool.false_eq_true, hG, hcond, hfcfg]
        have hcur : ∀ opts, alFind p.currSect p.options = some opts →
            ∀ nv ∈ opts, (nv.1, valueKind nv.2) ∈ ds := by
          intro opts hopts nv hnv
          rw [hF] at hopts
          injection hopts with hopts
          subst hopts
          exact hmem₀ nv hnv
        have hosub := opts_sub_preserve p cm sc inv ds hds _ hcur
          (fun t ht => rfl)
        have hci := cont_inv p cm line sc _ inv hblk hosub
        exact ⟨_, hrun, hci.1, hci.2⟩


theorem empty_append_str (s : String) : "" ++ s = s := by
  cases s with
  | mk d => rfl

theorem step_fill (p : Parser) (cm line : String) (sc sc' : ScanSt)
    (inv : Inv p cm sc)
    (hclass : classifyLine line = .fill)
    (hscan : scanStep sc line = some sc') :
    ∃ p', parseLineStep (p, cm) line = .ok (p', cm) ∧ Inv p' cm sc' ∧
      p'.write = p.write ++ line := by
  obtain ⟨hsec, hopt, hml, hfl⟩ := classify_fill_inv hclass
  have hsc' : sc = sc' := by
    simp only [scanStep, hclass] at hscan
    first
    | exact hscan
    | exact Option.some.inj hscan
  subst hsc'
  have hsecline : isSectionLine line = false := by simp [isSectionLine, hsec]
  have hoptline : isOptionLine line = false := by simp [isOptionLine, hopt]
  have hmlline : isMlLine line = false := by simp [isMlLine, hml]
  cases hib : p.inOptionBlock with
  | true =>
    have hbt : sc.inBlock = true := by rw [← inv.block_eq]; exact hib
    obtain ⟨p', hrun, hinv, hwr⟩ := contStep p cm line sc inv hbt
    refine ⟨p', ?_, hinv, hwr⟩
    simp only [parseLineStep, hsecline, hoptline, hmlline, Bool.false_eq_true,
      if_false, hib, if_true, hrun, Except.map]
  | false =>
    by_cases hcs : p.currSect = ""
    · obtain ⟨hcfg0, hsec0, hopt0, hiob0⟩ := inv.header_mode hcs
      have hstep : parseLineStep (p, cm) line =
          .ok ({ p with
                 inOptionBlock := false
                 header := p.header ++ [line] }, cm) := by
        simp only [parseLineStep, hsecline, hoptline, hmlline, Bool.false_eq_true,
          if_false, hib, hfl, if_true, parseComment, hcs, Except.map]
      refine ⟨_, hstep, ?_, ?_⟩
      · refine ⟨?_, ?_, ?_, ?_, ?_, ?_, ?_, ?_, ?_, ?_, ?_, ?_⟩
        · exact inv.secs_eq
        · exact inv.cfg_keys
        · exact inv.decl_keys
        · exact inv.cur_eq
        · intro _
          exact ⟨hcfg0, hsec0, hopt0, rfl⟩
        · exact inv.cur_last
        · exact inv.secs_nodup
        · exact inv.body_names
        · exact inv.decl_nodup
        · exact inv.opts_sub
        · dsimp only
          rw [← hib]
          exact inv.block_eq
        · intro h
          have hbf : sc.inBlock = false := by rw [← inv.block_eq]; exact hib
          rw [hbf] at h
          exact absurd h (by simp)
      · simp only [Parser.write, hcfg0, List.map_nil, join_append, join_singleton]
        rw [show String.join ([] : List String) = "" from rfl,
          String.append_empty, String.append_empty]
    · obtain ⟨l₁, c, hcfg, hnotc, hfindc⟩ := config_split p.config p.currSect
        (by rw [inv.cfg_keys]; exact inv.cur_last hcs)
        (by rw [inv.cfg_keys]; exact inv.secs_nodup)
      have haddb := addBody_ok { p with inOptionBlock := false } l₁ c "" "" line
        hcfg hnotc
      have hstep : parseLineStep (p, cm) line =
          .ok ({ p with
                 inOptionBlock := false
                 config := l₁ ++ [(p.currSect,
                   appendBody (mkBodyEntry "" "" line) c)] }, cm) := by
        simp only [parseLineStep, hsecline, hoptline, hmlline, Bool.false_eq_true,
          if_false, hib, hfl, if_true, parseComment, if_neg hcs, Except.map]
        rw [haddb]
      refine ⟨_, hstep, ?_, ?_⟩
      · refine ⟨?_, ?_, ?_, ?_, ?_, ?_, ?_, ?_, ?_, ?_, ?_, ?_⟩
        · exact inv.secs_eq
        · dsimp only
          rw [show (l₁ ++ [(p.currSect,
              appendBody (mkBodyEntry "" "" line) c)]).map Prod.fst =
              (l₁ ++ [(p.currSect, c)]).map Prod.fst by simp]
          rw [← hcfg, inv.cfg_keys]
        · exact inv.decl_keys
        · exact inv.cur_eq
        · intro h
          exact absurd h hcs
        · exact inv.cur_last
        · exact inv.secs_nodup
        · intro t dst hdst
          dsimp only
          by_cases hts : t = p.currSect
          · subst hts
            obtain ⟨cfg0, hcfg0, hnames0⟩ := inv.body_names p.currSect dst hdst
            have hc0 : cfg0 = c :=
              (Option.some.inj (hfindc.symm.trans hcfg0)).symm
            refine ⟨appendBody (mkBodyEntry "" "" line) c, ?_, ?_⟩
            · rw [alFind_append_right _ _ _
                (alFind_none_of_not_mem_keys _ _ hnotc), alFind_singleton_self]
            · simp only [appendBody, mkBodyEntry, List.map_append, List.map_cons,
                List.map_nil, List.filter_append]
              rw [hc0] at hnames0
              rw [hnames0]
              simp
          · rw [alFind_swap_last t p.currSect l₁ c _ hts, ← hcfg]
            exact inv.body_names t dst hdst
        · exact inv.decl_nodup
        · exact inv.opts_sub
        · dsimp only
          rw [← hib]
          exact inv.block_eq
        · intro h
          have hbf : sc.inBlock = false := by rw [← inv.block_eq]; exact hib
          rw [hbf] at h
          exact absurd h (by simp)
      · exact write_step p _ l₁ p.currSect c _ line hcfg rfl rfl
          (by rw [render_appendBody, entryRender_mk])


theorem step_other (p : Parser) (cm line : String) (sc sc' : ScanSt)
    (inv : Inv p cm sc)
    (hclass : classifyLine line = .other)
    (hscan : scanStep sc line = some sc') :
    ∃ p', parseLineStep (p, cm) line = .ok (p', cm) ∧ Inv p' cm sc' ∧
      p'.write = p.write ++ line := by
  obtain ⟨hsec, hopt, hml, hcl, hel⟩ := classify_other_inv hclass
  simp only [scanStep, hclass] at hscan
  cases hbt : sc.inBlock with
  | false =>
    rw [hbt] at hscan
    simp at hscan
  | true =>
    rw [hbt, if_pos rfl] at hscan
    have hsc' : sc = sc' := by
      first
      | exact hscan
      | exact Option.some.inj hscan
    subst hsc'
    have hib : p.inOptionBlock = true := by rw [inv.block_eq]; exact hbt
    obtain ⟨p', hrun, hinv, hwr⟩ := contStep p cm line sc inv hbt
    refine ⟨p', ?_, hinv, hwr⟩
    have hsecline : isSectionLine line = false := by simp [isSectionLine, hsec]
    have hoptline : isOptionLine line = false := by simp [isOptionLine, hopt]
    have hmlline : isMlLine line = false := by simp [isMlLine, hml]
    simp only [parseLineStep, hsecline, hoptline, hmlline, Bool.false_eq_true,
      if_false, hib, if_true, hrun, Except.map]

theorem stepMain (p : Parser) (cm line : String) (sc sc' : ScanSt)
    (inv : Inv p cm sc) (hscan : scanStep sc line = some sc') :
    ∃ p' cm', parseLineStep (p, cm) line = .ok (p', cm') ∧ Inv p' cm' sc' ∧
      p'.write = p.write ++ line := by
  cases hclass : classifyLine line with
  | sec n =>
    obtain ⟨p', h1, h2, h3⟩ := step_sec p cm line n sc sc' inv hclass hscan
    exact ⟨p', cm, h1, h2, h3⟩
  | opt n v =>
    obtain ⟨p', h1, h2, h3⟩ := step_opt p cm line n v sc sc' inv hclass hscan
    exact ⟨p', cm, h1, h2, h3⟩
  | mlstart n =>
    obtain ⟨p', h1, h2, h3⟩ := step_ml p cm line n sc sc' inv hclass hscan
    exact ⟨p', n, h1, h2, h3⟩
  | fill =>
    obtain ⟨p', h1, h2, h3⟩ := step_fill p cm line sc sc' inv hclass hscan
    exact ⟨p', cm, h1, h2, h3⟩
  | other =>
    obtain ⟨p', h1, h2, h3⟩ := step_other p cm line sc sc' inv hclass hscan
    exact ⟨p', cm, h1, h2, h3⟩

theorem foldSteps (lines : List String) : ∀ (p : Parser) (cm : String)
    (sc sc' : ScanSt), Inv p cm sc → scanLines sc lines = some sc' →
    ∃ p' cm', lines.foldlM parseLineStep (p, cm) = .ok (p', cm') ∧
      Inv p' cm' sc' ∧ p'.write = p.write ++ String.join lines := by
  induction lines with
  | nil =>
    intro p cm sc sc' inv hscan
    refine ⟨p, cm, rfl, ?_, ?_⟩
    · have hsc : sc = sc' := by
        simp only [scanLines, List.foldlM] at hscan
        first
        | exact hscan
        | exact Option.some.inj hscan
      rw [← hsc]
      exact inv
    · rw [show String.join ([] : List String) = "" from rfl, String.append_empty]
  | cons l ls ih =>
    intro p cm sc sc' inv hscan
    rw [scanLines, List.foldlM_cons] at hscan
    cases hs1 : scanStep sc l with
    | none =>
      rw [hs1] at hscan
      simp at hscan
    | some sc₁ =>
      rw [hs1] at hscan
      have hrest : scanLines sc₁ ls = some sc' := by
        rw [scanLines]
        exact hscan
      obtain ⟨p₁, cm₁, hstep, hinv₁, hw₁⟩ := stepMain p cm l sc sc₁ inv hs1
      obtain ⟨p', cm', hfold, hinv', hw'⟩ := ih p₁ cm₁ sc₁ sc' hinv₁ hrest
      refine ⟨p', cm', ?_, hinv', ?_⟩
      · rw [List.foldlM_cons, hstep]
        exact hfold
      · rw [hw', hw₁, join_cons, String.append_assoc]

theorem inv_init : Inv Parser.init "" ScanSt.init := by
  refine ⟨rfl, rfl, rfl, ?_, ?_, ?_, ?_, ?_, ?_, ?_, rfl, ?_⟩
  · simp [Parser.init, ScanSt.init]
  · intro _
    exact ⟨rfl, rfl, rfl, rfl⟩
  · intro h
    exact absurd rfl h
  · exact List.nodup_nil
  · intro s ds h
    simp [alFind, ScanSt.init] at h
  · intro s ds h
    simp [alFind, ScanSt.init] at h
  · intro s opts h
    simp [alFind, Parser.init] at h
  · intro h
    exact absurd h (by simp [ScanSt.init])

/-- **C2.**  Corrected round-trip property: for any readlines-shaped input
accepted by the validity scan (every line classifies, continuation lines only
inside an open multiline block, only comments or blanks before the first
section, no duplicate section names, no duplicate option names within a
section), `_parse_config` succeeds and `write` reproduces the input text
byte-for-byte. -/
theorem c2_roundtrip (lines : List String) (h : ValidInput lines = true) :
    ∃ p, parseConfig Parser.init lines = .ok p ∧
      p.write = String.join lines := by
  have hscan : (scanLines ScanSt.init lines).isSome = true := by
    simp only [ValidInput, Bool.and_eq_true] at h
    exact h.2
  cases hsl : scanLines ScanSt.init lines with
  | none =>
    rw [hsl] at hscan
    simp at hscan
  | some sc' =>
    obtain ⟨p', cm', hfold, hinv, hw⟩ :=
      foldSteps lines Parser.init "" ScanSt.init sc' inv_init hsl
    refine ⟨p', ?_, ?_⟩
    · rw [parseConfig, hfold]
      rfl
    · rw [hw, show Parser.init.write = "" from rfl, empty_append_str]

/-- Witness for C2: a concrete ten-line document exercising header comments,
blank lines, two sections, single-line options, a multiline option with
continuation lines and an interleaved comment, round-trips through the
parser. -/
theorem c2_roundtrip_witness :
    ∃ p, parseConfig Parser.init ["# top\n", "\n", "[ab]\n", "k: v\n",
      "ml:\n", "  a\n", "; c\n", "  b\n", "[cd ef]\n", "x: y\n"] =
      .ok p ∧
      p.write = String.join ["# top\n", "\n", "[ab]\n", "k: v\n",
        "ml:\n", "  a\n", "; c\n", "  b\n", "[cd ef]\n", "x: y\n"] :=
  c2_roundtrip ["# top\n", "\n", "[ab]\n", "k: v\n",
    "ml:\n", "  a\n", "; c\n", "  b\n", "[cd ef]\n", "x: y\n"] (by decide)

end SCP
